import Mathlib

/-
Shallow embedding of the analytics aggregation and normalization logic of
`src/public/js/analytics-dashboard.js` (class `DashboardUI`).

Modelling conventions:
* A JavaScript per-date metrics object (`metrics.daily`) is modelled as an
  association list `Daily = List (String × DailyMetric)`; JavaScript object
  keys are unique, which appears as `Nodup` hypotheses on the key list.
* JavaScript numbers holding daily counts and rolling sums are modelled as
  `Nat` (the data model restricts them to non-negative integers); growth
  percentages, produced by division, are modelled as `ℚ`.
* A field that may be absent on a record (`undefined` in JavaScript) is an
  `Option`; JavaScript truthiness of a numeric field is `getD 0 ≠ 0`
  (both `undefined` and `0` are falsy).
* A JavaScript statement that throws a `TypeError` (property access on
  `undefined`) is modelled by an `Option`/`Except` error value.
-/

/-- One per-date record: `{pageviews, rolling_7, rolling_28, growth_7, growth_28}`.
`pageviews` is always present on source records; the four derived fields are
optional (`undefined` when never computed). -/
structure DailyMetric where
  pageviews : Nat
  rolling_7 : Option Nat
  rolling_28 : Option Nat
  growth_7 : Option ℚ
  growth_28 : Option ℚ
  deriving Repr, DecidableEq

instance : Inhabited DailyMetric := ⟨⟨0, none, none, none, none⟩⟩

/-- A per-date metrics mapping (a JavaScript object keyed by date string). -/
abbrev Daily := List (String × DailyMetric)

/-- Association-list lookup: `daily[date]`, `none` when the key is absent
(JavaScript `undefined`). -/
def lookupDate : Daily → String → Option DailyMetric
  | [], _ => none
  | (k, m) :: rest, d => if k = d then some m else lookupDate rest d

/-- In-place mutation of the record stored under key `d`
(`metrics.daily[date].field = v` in JavaScript): every entry whose key is `d`
is rewritten by `f`; entries under other keys are untouched. -/
def modifyDate (daily : Daily) (d : String) (f : DailyMetric → DailyMetric) : Daily :=
  daily.map (fun e => if e.1 = d then (e.1, f e.2) else e)

/-- Sum of `f lo + f (lo+1) + ... + f (lo+k-1)` (`k` summands from `lo`). -/
def sumFrom (f : Nat → Nat) (lo : Nat) : Nat → Nat
  | 0 => 0
  | k + 1 => f lo + sumFrom f (lo + 1) k

/-- Sum of `f j` for `j` running from `lo` to `hi` inclusive — the shape of the
JavaScript loops `for (let j = lo; j <= hi; j++) sum += ...`. -/
def windowSum (f : Nat → Nat) (lo hi : Nat) : Nat :=
  sumFrom f lo (hi + 1 - lo)

/-- `metrics.daily[datesSorted[j]].pageviews`, the only read the rolling loop
performs on the evolving series. Out-of-range indices never occur at use
sites (the loop bounds guard them). -/
def pvAt (daily : Daily) (ds : List String) (j : Nat) : Nat :=
  ((lookupDate daily (ds.getD j "")).getD default).pageviews

/-- The pageview sum `for (let j = lo; j <= hi; j++) sum += daily[ds[j]].pageviews`. -/
def sumPvRange (daily : Daily) (ds : List String) (lo hi : Nat) : Nat :=
  windowSum (pvAt daily ds) lo hi

/-- Growth formula `(cur / prev - 1) * 100` evaluated in exact rational
arithmetic (the JavaScript engine uses IEEE doubles for the same formula). -/
def growthVal (cur prev : Nat) : ℚ :=
  ((cur : ℚ) / (prev : ℚ) - 1) * 100

/-- The 7-day part of one iteration of the rolling loop
(`_calculateRollingMetrics`, lines 134–153): when `i >= 6` the 7-day window
sum is written to `rolling_7[i]` unconditionally, and when additionally
`i >= 13` and the previous window sum is positive, `growth_7[i]` is written. -/
def phase7 (ds : List String) (daily : Daily) (i : Nat) : Daily :=
  if 6 ≤ i then
    let date := ds.getD i ""
    let sum7 := sumPvRange daily ds (i - 6) i
    let d1 := modifyDate daily date (fun m => { m with rolling_7 := some sum7 })
    if 13 ≤ i then
      let prev7 := sumPvRange d1 ds (i - 13) (i - 7)
      if 0 < prev7 then
        modifyDate d1 date (fun m => { m with growth_7 := some (growthVal sum7 prev7) })
      else d1
    else d1
  else daily

/-- The 28-day part of one iteration of the rolling loop
(`_calculateRollingMetrics`, lines 155–174), mirroring `phase7` with window
width 28 and growth threshold `i >= 55`. -/
def phase28 (ds : List String) (daily : Daily) (i : Nat) : Daily :=
  if 27 ≤ i then
    let date := ds.getD i ""
    let sum28 := sumPvRange daily ds (i - 27) i
    let d2 := modifyDate daily date (fun m => { m with rolling_28 := some sum28 })
    if 55 ≤ i then
      let prev28 := sumPvRange d2 ds (i - 55) (i - 28)
      if 0 < prev28 then
        modifyDate d2 date (fun m => { m with growth_28 := some (growthVal sum28 prev28) })
      else d2
    else d2
  else daily

/-- One iteration (index `i`) of the body of the loop in
`_calculateRollingMetrics`: the 7-day block followed by the 28-day block. -/
def loopBody (ds : List String) (daily : Daily) (i : Nat) : Daily :=
  phase28 ds (phase7 ds daily i) i

/-- `DashboardUI._calculateRollingMetrics(metrics, datesSorted)`: the loop
`for (let i = 0; i < datesSorted.length; i++)` over `loopBody`. -/
def calculateRollingMetrics (daily : Daily) (ds : List String) : Daily :=
  (List.range ds.length).foldl (loopBody ds) daily

/-- The per-record effect of iteration `i` of the rolling loop, expressed
against a fixed pageview sequence `pv`: this is what `loopBody` does to the
record at `ds[i]` (the loop writes only derived fields, never `pageviews`,
so all its reads see the original pageview values). -/
def applyRolling (pv : Nat → Nat) (i : Nat) (m : DailyMetric) : DailyMetric where
  pageviews := m.pageviews
  rolling_7 := if 6 ≤ i then some (windowSum pv (i - 6) i) else m.rolling_7
  rolling_28 := if 27 ≤ i then some (windowSum pv (i - 27) i) else m.rolling_28
  growth_7 :=
    if 13 ≤ i ∧ 0 < windowSum pv (i - 13) (i - 7) then
      some (growthVal (windowSum pv (i - 6) i) (windowSum pv (i - 13) (i - 7)))
    else m.growth_7
  growth_28 :=
    if 55 ≤ i ∧ 0 < windowSum pv (i - 55) (i - 28) then
      some (growthVal (windowSum pv (i - 27) i) (windowSum pv (i - 55) (i - 28)))
    else m.growth_28

/-! ### Lexicographic string order and `Array.prototype.sort`

JavaScript's default `sort()` compares strings lexicographically by code
unit; for the ASCII ISO dates used here this is the code-point order below.
`sortStr` is an insertion sort producing the same sorted permutation. -/

/-- Lexicographic comparison of character lists by code point. -/
def lexLe : List Char → List Char → Bool
  | [], _ => true
  | _ :: _, [] => false
  | a :: as, b :: bs =>
    if a.toNat < b.toNat then true
    else if b.toNat < a.toNat then false
    else lexLe as bs

/-- JavaScript string comparison `a <= b`. -/
def strLe (a b : String) : Bool := lexLe a.data b.data

/-- Insert a string into a `strLe`-sorted list. -/
def insertStr (d : String) : List String → List String
  | [] => [d]
  | x :: xs => if strLe d x then d :: x :: xs else x :: insertStr d xs

/-- Sorting as performed by `Object.keys(...).sort()`. -/
def sortStr : List String → List String
  | [] => []
  | x :: xs => insertStr x (sortStr xs)

theorem lexLe_total : ∀ as bs : List Char, lexLe as bs = true ∨ lexLe bs as = true := by
  intro as
  induction as with
  | nil => intro bs; left; rfl
  | cons a as ih =>
    intro bs
    cases bs with
    | nil => right; rfl
    | cons b bs =>
      by_cases hab : a.toNat < b.toNat
      · left; simp [lexLe, hab]
      · by_cases hba : b.toNat < a.toNat
        · right; simp [lexLe, hba]
        · rcases ih bs with h | h
          · left; simp [lexLe, hab, hba, h]
          · right; simp [lexLe, hab, hba, h]

theorem strLe_total (a b : String) : strLe a b = true ∨ strLe b a = true :=
  lexLe_total a.data b.data

theorem perm_insertStr (d : String) (l : List String) : (insertStr d l).Perm (d :: l) := by
  induction l with
  | nil => simp [insertStr]
  | cons x xs ih =>
    by_cases h : strLe d x
    · simp [insertStr, h]
    · rw [insertStr, if_neg h]
      exact (ih.cons x).trans (List.Perm.swap d x xs)

theorem perm_sortStr (l : List String) : (sortStr l).Perm l := by
  induction l with
  | nil => simp [sortStr]
  | cons x xs ih =>
    exact ((perm_insertStr x (sortStr xs)).trans (List.Perm.cons x ih))

theorem mem_sortStr (d : String) (l : List String) : d ∈ sortStr l ↔ d ∈ l :=
  (perm_sortStr l).mem_iff

theorem sortStr_eq_nil_iff (l : List String) : sortStr l = [] ↔ l = [] := by
  constructor
  · intro h
    have := (perm_sortStr l).length_eq
    rw [h] at this
    exact List.length_eq_zero.mp this.symm
  · intro h; subst h; rfl

theorem nodup_sortStr (l : List String) (h : l.Nodup) : (sortStr l).Nodup :=
  ((perm_sortStr l).nodup_iff).mpr h


theorem lexLe_cons_iff (a b : Char) (as bs : List Char) :
    lexLe (a :: as) (b :: bs) = true ↔
      (a.toNat < b.toNat ∨ (a.toNat = b.toNat ∧ lexLe as bs = true)) := by
  by_cases hab : a.toNat < b.toNat
  · simp [lexLe, hab]
  · by_cases hba : b.toNat < a.toNat
    · simp [lexLe, hab, hba]; omega
    · have heq : a.toNat = b.toNat := by omega
      simp [lexLe, hab, hba, heq]

theorem lexLe_trans : ∀ as bs cs : List Char,
    lexLe as bs = true → lexLe bs cs = true → lexLe as cs = true := by
  intro as
  induction as with
  | nil => intro bs cs _ _; rfl
  | cons a as ih =>
    intro bs cs hab hbc
    cases bs with
    | nil => simp [lexLe] at hab
    | cons b bs =>
      cases cs with
      | nil => simp [lexLe] at hbc
      | cons c cs =>
        rw [lexLe_cons_iff] at hab hbc ⊢
        rcases hab with h1 | ⟨h1, h1'⟩
        · rcases hbc with h2 | ⟨h2, _⟩
          · left; omega
          · left; omega
        · rcases hbc with h2 | ⟨h2, h2'⟩
          · left; omega
          · right; exact ⟨by omega, ih bs cs h1' h2'⟩

theorem strLe_trans {a b c : String} (h1 : strLe a b = true) (h2 : strLe b c = true) :
    strLe a c = true :=
  lexLe_trans a.data b.data c.data h1 h2

theorem sorted_insertStr (d : String) (l : List String)
    (h : List.Pairwise (fun a b => strLe a b = true) l) :
    List.Pairwise (fun a b => strLe a b = true) (insertStr d l) := by
  induction l with
  | nil => simp [insertStr]
  | cons x xs ih =>
    rcases List.pairwise_cons.mp h with ⟨hx, hxs⟩
    by_cases hdx : strLe d x
    · rw [insertStr, if_pos hdx]
      refine List.pairwise_cons.mpr ⟨?_, h⟩
      intro b hb
      rcases List.mem_cons.mp hb with rfl | hb
      · exact hdx
      · exact strLe_trans hdx (hx b hb)
    · rw [insertStr, if_neg hdx]
      refine List.pairwise_cons.mpr ⟨?_, ih hxs⟩
      intro b hb
      rw [(perm_insertStr d xs).mem_iff] at hb
      rcases List.mem_cons.mp hb with rfl | hb
      · rcases strLe_total b x with h' | h'
        · exact absurd h' hdx
        · exact h'
      · exact hx b hb

theorem sorted_sortStr (l : List String) :
    List.Pairwise (fun a b => strLe a b = true) (sortStr l) := by
  induction l with
  | nil => simp [sortStr]
  | cons x xs ih => exact sorted_insertStr x (sortStr xs) ih

/-! ### Association-list basics -/

theorem lookupDate_cons (k : String) (m : DailyMetric) (rest : Daily) (d : String) :
    lookupDate ((k, m) :: rest) d = if k = d then some m else lookupDate rest d := rfl

theorem modifyDate_cons (k : String) (m : DailyMetric) (rest : Daily) (d : String)
    (f : DailyMetric → DailyMetric) :
    modifyDate ((k, m) :: rest) d f =
      (if k = d then (k, f m) else (k, m)) :: modifyDate rest d f := by
  by_cases h : k = d <;> simp [modifyDate, h]

theorem lookupDate_modifyDate_self (st : Daily) (d : String) (f : DailyMetric → DailyMetric) :
    lookupDate (modifyDate st d f) d = (lookupDate st d).map f := by
  induction st with
  | nil => rfl
  | cons e rest ih =>
    obtain ⟨k, m⟩ := e
    rw [modifyDate_cons]
    by_cases h : k = d
    · rw [if_pos h, lookupDate_cons, if_pos h, lookupDate_cons, if_pos h]; rfl
    · rw [if_neg h, lookupDate_cons, if_neg h, lookupDate_cons, if_neg h, ih]

theorem lookupDate_modifyDate_ne (st : Daily) (d d' : String) (f : DailyMetric → DailyMetric)
    (h : d' ≠ d) : lookupDate (modifyDate st d f) d' = lookupDate st d' := by
  induction st with
  | nil => rfl
  | cons e rest ih =>
    obtain ⟨k, m⟩ := e
    rw [modifyDate_cons]
    by_cases hk : k = d
    · have hk' : ¬ k = d' := fun hc => h (hc.symm.trans hk)
      rw [if_pos hk, lookupDate_cons, if_neg hk', lookupDate_cons, if_neg hk', ih]
    · rw [if_neg hk, lookupDate_cons, lookupDate_cons]
      by_cases hk' : k = d'
      · rw [if_pos hk', if_pos hk']
      · rw [if_neg hk', if_neg hk', ih]

theorem keys_modifyDate (st : Daily) (d : String) (f : DailyMetric → DailyMetric) :
    (modifyDate st d f).map Prod.fst = st.map Prod.fst := by
  induction st with
  | nil => rfl
  | cons e rest ih =>
    by_cases h : e.1 = d <;> simp only [modifyDate, List.map_cons] at ih ⊢ <;>
      simp [h, ih]

theorem lookupDate_isSome_iff (st : Daily) (d : String) :
    (lookupDate st d).isSome ↔ d ∈ st.map Prod.fst := by
  induction st with
  | nil => simp [lookupDate]
  | cons e rest ih =>
    obtain ⟨k, m⟩ := e
    by_cases h : k = d
    · subst h; simp [lookupDate]
    · have h' : d ≠ k := fun hc => h hc.symm
      simp [lookupDate, h, h', ih]

theorem lookupDate_eq_none_iff (st : Daily) (d : String) :
    lookupDate st d = none ↔ d ∉ st.map Prod.fst := by
  rw [← lookupDate_isSome_iff]
  cases lookupDate st d <;> simp

theorem lookupDate_mem {st : Daily} {d : String} {m : DailyMetric}
    (h : lookupDate st d = some m) : (d, m) ∈ st := by
  induction st with
  | nil => simp [lookupDate] at h
  | cons e rest ih =>
    obtain ⟨k, m'⟩ := e
    by_cases hk : k = d
    · subst hk
      simp [lookupDate] at h
      subst h; exact List.mem_cons_self _ _
    · simp [lookupDate, hk] at h
      exact List.mem_cons_of_mem _ (ih h)

theorem sumFrom_congr {f g : Nat → Nat} (h : ∀ j, f j = g j) :
    ∀ (k lo : Nat), sumFrom f lo k = sumFrom g lo k := by
  intro k
  induction k with
  | zero => intro lo; rfl
  | succ k ih => intro lo; simp [sumFrom, h lo, ih (lo + 1)]

theorem windowSum_congr {f g : Nat → Nat} (h : ∀ j, f j = g j) (lo hi : Nat) :
    windowSum f lo hi = windowSum g lo hi :=
  sumFrom_congr h _ lo

/-! ### The rolling loop writes only derived fields

`_calculateRollingMetrics` reads `pageviews` and writes the four derived
fields, so the pageview sequence it sums over is invariant under its own
updates. `pvPres a b` states that `a` and `b` agree on `pageviews` at every
key. -/

def pvPres (a b : Daily) : Prop :=
  ∀ d, (lookupDate a d).map (·.pageviews) = (lookupDate b d).map (·.pageviews)

theorem pvPres_refl (a : Daily) : pvPres a a := fun _ => rfl

theorem pvPres_trans {a b c : Daily} (h1 : pvPres a b) (h2 : pvPres b c) : pvPres a c :=
  fun d => (h1 d).trans (h2 d)

theorem pvPres_modifyDate (st : Daily) (d : String) {f : DailyMetric → DailyMetric}
    (hf : ∀ m, (f m).pageviews = m.pageviews) : pvPres (modifyDate st d f) st := by
  intro d'
  by_cases h : d' = d
  · subst h
    rw [lookupDate_modifyDate_self]
    cases lookupDate st d' <;> simp [hf]
  · rw [lookupDate_modifyDate_ne st d d' f h]

theorem pageviews_getD_eq {o o' : Option DailyMetric}
    (h : o.map (·.pageviews) = o'.map (·.pageviews)) :
    (o.getD default).pageviews = (o'.getD default).pageviews := by
  cases o <;> cases o' <;> simp_all

theorem pvAt_eq_of_pvPres {a b : Daily} (h : pvPres a b) (ds : List String) (j : Nat) :
    pvAt a ds j = pvAt b ds j :=
  pageviews_getD_eq (h (ds.getD j ""))

theorem sumPvRange_eq_of_pvPres {a b : Daily} (h : pvPres a b) (ds : List String)
    (lo hi : Nat) : sumPvRange a ds lo hi = sumPvRange b ds lo hi :=
  windowSum_congr (pvAt_eq_of_pvPres h ds) lo hi

/-! ### Per-iteration characterization of the rolling loop -/

/-- Effect of the 7-day block of iteration `i` on the record at `ds[i]`,
relative to the pageview sequence `pv`. -/
def apply7 (pv : Nat → Nat) (i : Nat) (m : DailyMetric) : DailyMetric where
  pageviews := m.pageviews
  rolling_7 := if 6 ≤ i then some (windowSum pv (i - 6) i) else m.rolling_7
  rolling_28 := m.rolling_28
  growth_7 :=
    if 13 ≤ i ∧ 0 < windowSum pv (i - 13) (i - 7) then
      some (growthVal (windowSum pv (i - 6) i) (windowSum pv (i - 13) (i - 7)))
    else m.growth_7
  growth_28 := m.growth_28

/-- Effect of the 28-day block of iteration `i` on the record at `ds[i]`. -/
def apply28 (pv : Nat → Nat) (i : Nat) (m : DailyMetric) : DailyMetric where
  pageviews := m.pageviews
  rolling_7 := m.rolling_7
  rolling_28 := if 27 ≤ i then some (windowSum pv (i - 27) i) else m.rolling_28
  growth_7 := m.growth_7
  growth_28 :=
    if 55 ≤ i ∧ 0 < windowSum pv (i - 55) (i - 28) then
      some (growthVal (windowSum pv (i - 27) i) (windowSum pv (i - 55) (i - 28)))
    else m.growth_28

theorem applyRolling_eq (pv : Nat → Nat) (i : Nat) (m : DailyMetric) :
    applyRolling pv i m = apply28 pv i (apply7 pv i m) := rfl

theorem apply7_congr {pv pv' : Nat → Nat} (h : ∀ j, pv j = pv' j) (i : Nat) (m : DailyMetric) :
    apply7 pv i m = apply7 pv' i m := by
  have e : ∀ lo hi, windowSum pv lo hi = windowSum pv' lo hi := fun lo hi => windowSum_congr h lo hi
  simp [apply7, e]

theorem apply28_congr {pv pv' : Nat → Nat} (h : ∀ j, pv j = pv' j) (i : Nat) (m : DailyMetric) :
    apply28 pv i m = apply28 pv' i m := by
  have e : ∀ lo hi, windowSum pv lo hi = windowSum pv' lo hi := fun lo hi => windowSum_congr h lo hi
  simp [apply28, e]

theorem applyRolling_congr {pv pv' : Nat → Nat} (h : ∀ j, pv j = pv' j) (i : Nat)
    (m : DailyMetric) : applyRolling pv i m = applyRolling pv' i m := by
  rw [applyRolling_eq, applyRolling_eq, apply7_congr h, apply28_congr h]

theorem phase7_pvPres (ds : List String) (st : Daily) (i : Nat) :
    pvPres (phase7 ds st i) st := by
  simp only [phase7]
  split_ifs with h6 h13 hpos
  · exact pvPres_trans (pvPres_modifyDate _ _ (fun _ => rfl)) (pvPres_modifyDate _ _ (fun _ => rfl))
  · exact pvPres_modifyDate _ _ (fun _ => rfl)
  · exact pvPres_modifyDate _ _ (fun _ => rfl)
  · exact pvPres_refl st

theorem phase28_pvPres (ds : List String) (st : Daily) (i : Nat) :
    pvPres (phase28 ds st i) st := by
  simp only [phase28]
  split_ifs with h27 h55 hpos
  · exact pvPres_trans (pvPres_modifyDate _ _ (fun _ => rfl)) (pvPres_modifyDate _ _ (fun _ => rfl))
  · exact pvPres_modifyDate _ _ (fun _ => rfl)
  · exact pvPres_modifyDate _ _ (fun _ => rfl)
  · exact pvPres_refl st

theorem loopBody_pvPres (ds : List String) (st : Daily) (i : Nat) :
    pvPres (loopBody ds st i) st :=
  pvPres_trans (phase28_pvPres ds (phase7 ds st i) i) (phase7_pvPres ds st i)

theorem phase7_lookup_ne (ds : List String) (st : Daily) (i : Nat) (d : String)
    (h : d ≠ ds.getD i "") : lookupDate (phase7 ds st i) d = lookupDate st d := by
  simp only [phase7]
  split_ifs with h6 h13 hpos
  · rw [lookupDate_modifyDate_ne _ _ _ _ h, lookupDate_modifyDate_ne _ _ _ _ h]
  · rw [lookupDate_modifyDate_ne _ _ _ _ h]
  · rw [lookupDate_modifyDate_ne _ _ _ _ h]
  · rfl

theorem phase28_lookup_ne (ds : List String) (st : Daily) (i : Nat) (d : String)
    (h : d ≠ ds.getD i "") : lookupDate (phase28 ds st i) d = lookupDate st d := by
  simp only [phase28]
  split_ifs with h27 h55 hpos
  · rw [lookupDate_modifyDate_ne _ _ _ _ h, lookupDate_modifyDate_ne _ _ _ _ h]
  · rw [lookupDate_modifyDate_ne _ _ _ _ h]
  · rw [lookupDate_modifyDate_ne _ _ _ _ h]
  · rfl

theorem loopBody_lookup_ne (ds : List String) (st : Daily) (i : Nat) (d : String)
    (h : d ≠ ds.getD i "") : lookupDate (loopBody ds st i) d = lookupDate st d := by
  unfold loopBody
  rw [phase28_lookup_ne _ _ _ _ h, phase7_lookup_ne _ _ _ _ h]

theorem keys_phase7 (ds : List String) (st : Daily) (i : Nat) :
    (phase7 ds st i).map Prod.fst = st.map Prod.fst := by
  simp only [phase7]
  split_ifs <;> simp [keys_modifyDate]

theorem keys_phase28 (ds : List String) (st : Daily) (i : Nat) :
    (phase28 ds st i).map Prod.fst = st.map Prod.fst := by
  simp only [phase28]
  split_ifs <;> simp [keys_modifyDate]

theorem keys_loopBody (ds : List String) (st : Daily) (i : Nat) :
    (loopBody ds st i).map Prod.fst = st.map Prod.fst := by
  unfold loopBody
  rw [keys_phase28, keys_phase7]

theorem phase7_lookup_self (ds : List String) (st : Daily) (i : Nat) (m : DailyMetric)
    (h : lookupDate st (ds.getD i "") = some m) :
    lookupDate (phase7 ds st i) (ds.getD i "") = some (apply7 (pvAt st ds) i m) := by
  have hd1 : ∀ lo hi, windowSum (pvAt (modifyDate st (ds.getD i "")
      (fun m => { m with rolling_7 := some (windowSum (pvAt st ds) (i - 6) i) })) ds) lo hi
      = windowSum (pvAt st ds) lo hi :=
    fun lo hi => windowSum_congr (pvAt_eq_of_pvPres
      (@pvPres_modifyDate st (ds.getD i "")
        (fun m => { m with rolling_7 := some (windowSum (pvAt st ds) (i - 6) i) })
        (fun _ => rfl)) ds) lo hi
  simp only [phase7, sumPvRange]
  split_ifs with h6 h13 hpos
  · rw [lookupDate_modifyDate_self, lookupDate_modifyDate_self, h]
    rw [hd1 (i - 13) (i - 7)] at hpos ⊢
    simp only [Option.map_some, Option.some.injEq, apply7]
    rw [if_pos h6, if_pos (And.intro h13 hpos)]; rfl
  · rw [hd1 (i - 13) (i - 7)] at hpos
    rw [lookupDate_modifyDate_self, h]
    simp only [Option.map_some, Option.some.injEq, apply7]
    rw [if_pos h6, if_neg (fun hc => hpos hc.2)]; rfl
  · rw [lookupDate_modifyDate_self, h]
    simp only [Option.map_some, Option.some.injEq, apply7]
    rw [if_pos h6, if_neg (fun hc => h13 hc.1)]; rfl
  · rw [h]
    have h13' : ¬ (13 ≤ i ∧ 0 < windowSum (pvAt st ds) (i - 13) (i - 7)) :=
      fun hc => h6 (le_trans (by norm_num) hc.1)
    simp only [Option.some.injEq, apply7]
    rw [if_neg h6, if_neg h13']

theorem phase28_lookup_self (ds : List String) (st : Daily) (i : Nat) (m : DailyMetric)
    (h : lookupDate st (ds.getD i "") = some m) :
    lookupDate (phase28 ds st i) (ds.getD i "") = some (apply28 (pvAt st ds) i m) := by
  have hd2 : ∀ lo hi, windowSum (pvAt (modifyDate st (ds.getD i "")
      (fun m => { m with rolling_28 := some (windowSum (pvAt st ds) (i - 27) i) })) ds) lo hi
      = windowSum (pvAt st ds) lo hi :=
    fun lo hi => windowSum_congr (pvAt_eq_of_pvPres
      (@pvPres_modifyDate st (ds.getD i "")
        (fun m => { m with rolling_28 := some (windowSum (pvAt st ds) (i - 27) i) })
        (fun _ => rfl)) ds) lo hi
  simp only [phase28, sumPvRange]
  split_ifs with h27 h55 hpos
  · rw [lookupDate_modifyDate_self, lookupDate_modifyDate_self, h]
    rw [hd2 (i - 55) (i - 28)] at hpos ⊢
    simp only [Option.map_some, Option.some.injEq, apply28]
    rw [if_pos h27, if_pos (And.intro h55 hpos)]; rfl
  · rw [hd2 (i - 55) (i - 28)] at hpos
    rw [lookupDate_modifyDate_self, h]
    simp only [Option.map_some, Option.some.injEq, apply28]
    rw [if_pos h27, if_neg (fun hc => hpos hc.2)]; rfl
  · rw [lookupDate_modifyDate_self, h]
    simp only [Option.map_some, Option.some.injEq, apply28]
    rw [if_pos h27, if_neg (fun hc => h55 hc.1)]; rfl
  · rw [h]
    have h55' : ¬ (55 ≤ i ∧ 0 < windowSum (pvAt st ds) (i - 55) (i - 28)) :=
      fun hc => h27 (le_trans (by norm_num) hc.1)
    simp only [Option.some.injEq, apply28]
    rw [if_neg h27, if_neg h55']

theorem loopBody_lookup_self (ds : List String) (st : Daily) (i : Nat) (m : DailyMetric)
    (h : lookupDate st (ds.getD i "") = some m) :
    lookupDate (loopBody ds st i) (ds.getD i "") = some (applyRolling (pvAt st ds) i m) := by
  unfold loopBody
  have h7 := phase7_lookup_self ds st i m h
  have h28 := phase28_lookup_self ds (phase7 ds st i) i (apply7 (pvAt st ds) i m) h7
  rw [h28, applyRolling_eq]
  congr 1
  exact apply28_congr (pvAt_eq_of_pvPres (phase7_pvPres ds st i) ds) i _

/-! ### Characterizing the full rolling loop -/

theorem foldlRange_pvPres (ds : List String) (st : Daily) :
    ∀ k, pvPres ((List.range k).foldl (loopBody ds) st) st := by
  intro k
  induction k with
  | zero => exact pvPres_refl st
  | succ k ih =>
    rw [List.range_succ, List.foldl_append, List.foldl_cons, List.foldl_nil]
    exact pvPres_trans (loopBody_pvPres ds _ k) ih

theorem foldlRange_keys (ds : List String) (st : Daily) :
    ∀ k, ((List.range k).foldl (loopBody ds) st).map Prod.fst = st.map Prod.fst := by
  intro k
  induction k with
  | zero => rfl
  | succ k ih =>
    rw [List.range_succ, List.foldl_append, List.foldl_cons, List.foldl_nil]
    rw [keys_loopBody, ih]

theorem getD_ne_of_nodup {ds : List String} (hnd : ds.Nodup) {i k : Nat}
    (hi : i < ds.length) (hk : k < ds.length) (hik : i ≠ k) :
    ds.getD i "" ≠ ds.getD k "" := by
  intro hc
  rw [List.getD_eq_getElem ds "" hi, List.getD_eq_getElem ds "" hk] at hc
  exact hik ((List.Nodup.getElem_inj_iff hnd).mp hc)

theorem getD_mem_of_lt {ds : List String} {k : Nat} (hk : k < ds.length) :
    ds.getD k "" ∈ ds := by
  rw [List.getD_eq_getElem ds "" hk]
  exact List.getElem_mem hk

theorem calc_aux (ds : List String) (hnd : ds.Nodup) (st : Daily)
    (hp : ∀ i, i < ds.length → (lookupDate st (ds.getD i "")).isSome) :
    ∀ k, k ≤ ds.length → ∀ i, i < ds.length →
      lookupDate ((List.range k).foldl (loopBody ds) st) (ds.getD i "") =
        (if i < k then (lookupDate st (ds.getD i "")).map (applyRolling (pvAt st ds) i)
         else lookupDate st (ds.getD i "")) := by
  intro k
  induction k with
  | zero => intro _ i _; simp
  | succ k ih =>
    intro hk1 i hi
    have hk : k ≤ ds.length := Nat.le_of_succ_le hk1
    have hklt : k < ds.length := hk1
    rw [List.range_succ, List.foldl_append, List.foldl_cons, List.foldl_nil]
    by_cases hik : i = k
    · subst hik
      have hbase := ih hk i hi
      rw [if_neg (lt_irrefl i)] at hbase
      obtain ⟨m, hm⟩ := Option.isSome_iff_exists.mp (hp i hi)
      rw [hm] at hbase
      have hself := loopBody_lookup_self ds _ i m hbase
      rw [hself, if_pos (Nat.lt_succ_self i), hm]
      simp only [Option.map_some']
      exact congrArg some (applyRolling_congr
        (pvAt_eq_of_pvPres (foldlRange_pvPres ds st i) ds) i m)
    · have hne : ds.getD i "" ≠ ds.getD k "" := getD_ne_of_nodup hnd hi hklt hik
      rw [loopBody_lookup_ne ds _ k _ hne, ih hk i hi]
      by_cases hlt : i < k
      · rw [if_pos hlt, if_pos (Nat.lt_succ_of_lt hlt)]
      · rw [if_neg hlt, if_neg (fun hc => hlt (by omega))]

theorem calc_lookup (daily : Daily) (ds : List String) (hnd : ds.Nodup)
    (hp : ∀ i, i < ds.length → (lookupDate daily (ds.getD i "")).isSome)
    (i : Nat) (hi : i < ds.length) :
    lookupDate (calculateRollingMetrics daily ds) (ds.getD i "") =
      (lookupDate daily (ds.getD i "")).map (applyRolling (pvAt daily ds) i) := by
  have h := calc_aux ds hnd daily hp ds.length le_rfl i hi
  rw [if_pos hi] at h
  simpa only [calculateRollingMetrics] using h

theorem calc_pvPres (daily : Daily) (ds : List String) :
    pvPres (calculateRollingMetrics daily ds) daily := by
  simp only [calculateRollingMetrics]
  exact foldlRange_pvPres ds daily ds.length

theorem calc_keys (daily : Daily) (ds : List String) :
    (calculateRollingMetrics daily ds).map Prod.fst = daily.map Prod.fst := by
  simp only [calculateRollingMetrics]
  exact foldlRange_keys ds daily ds.length

theorem foldlRange_lookup_not_mem (ds : List String) (st : Daily) (d : String) (hd : d ∉ ds) :
    ∀ k, k ≤ ds.length → lookupDate ((List.range k).foldl (loopBody ds) st) d = lookupDate st d := by
  intro k
  induction k with
  | zero => intro _; rfl
  | succ k ih =>
    intro hk1
    rw [List.range_succ, List.foldl_append, List.foldl_cons, List.foldl_nil]
    have hmem : ds.getD k "" ∈ ds := getD_mem_of_lt (by omega)
    rw [loopBody_lookup_ne ds _ k d (fun hc => hd (hc ▸ hmem))]
    exact ih (by omega)

theorem calc_lookup_not_mem (daily : Daily) (ds : List String) (d : String) (hd : d ∉ ds) :
    lookupDate (calculateRollingMetrics daily ds) d = lookupDate daily d := by
  simp only [calculateRollingMetrics]
  exact foldlRange_lookup_not_mem ds daily d hd ds.length le_rfl

/-! ### Extensionality and idempotence -/

theorem daily_ext : ∀ (a b : Daily), a.map Prod.fst = b.map Prod.fst →
    (a.map Prod.fst).Nodup → (∀ d, lookupDate a d = lookupDate b d) → a = b := by
  intro a
  induction a with
  | nil =>
    intro b hk _ _
    have hb : b = [] := by
      have h' := hk.symm
      rw [List.map_nil] at h'
      exact List.map_eq_nil_iff.mp h'
    rw [hb]
  | cons e rest ih =>
    intro b hk hnd h
    obtain ⟨k, m⟩ := e
    cases b with
    | nil => simp at hk
    | cons e' rest' =>
      obtain ⟨k', m'⟩ := e'
      simp only [List.map_cons, List.cons.injEq] at hk
      obtain ⟨hkk, htl⟩ := hk
      subst hkk
      have hm : m = m' := by
        have := h k
        rw [lookupDate_cons, lookupDate_cons, if_pos rfl, if_pos rfl] at this
        exact Option.some.inj this
      subst hm
      have hnotin : k ∉ rest.map Prod.fst := (List.nodup_cons.mp hnd).1
      have hnotin' : k ∉ rest'.map Prod.fst := htl ▸ hnotin
      have htails : ∀ d, lookupDate rest d = lookupDate rest' d := by
        intro d
        by_cases hdk : k = d
        · subst hdk
          rw [(lookupDate_eq_none_iff rest k).mpr hnotin,
            (lookupDate_eq_none_iff rest' k).mpr hnotin']
        · have := h d
          rw [lookupDate_cons, lookupDate_cons, if_neg hdk, if_neg hdk] at this
          exact this
      rw [ih rest' htl (List.nodup_cons.mp hnd).2 htails]

theorem applyRolling_idem (pv : Nat → Nat) (i : Nat) (m : DailyMetric) :
    applyRolling pv i (applyRolling pv i m) = applyRolling pv i m := by
  simp only [applyRolling]
  split_ifs <;> rfl

/-- Re-running `_calculateRollingMetrics` on its own output reproduces that
output exactly: every derived field it writes depends only on `pageviews`,
which it never modifies. -/
theorem calc_idem (daily : Daily) (ds : List String) (hnd : ds.Nodup)
    (hknd : (daily.map Prod.fst).Nodup)
    (hkeys : ∀ d, d ∈ ds ↔ d ∈ daily.map Prod.fst) :
    calculateRollingMetrics (calculateRollingMetrics daily ds) ds =
      calculateRollingMetrics daily ds := by
  have hp : ∀ i, i < ds.length → (lookupDate daily (ds.getD i "")).isSome := by
    intro i hi
    rw [lookupDate_isSome_iff]
    exact (hkeys _).mp (getD_mem_of_lt hi)
  have hp2 : ∀ i, i < ds.length →
      (lookupDate (calculateRollingMetrics daily ds) (ds.getD i "")).isSome := by
    intro i hi
    rw [lookupDate_isSome_iff, calc_keys]
    exact (hkeys _).mp (getD_mem_of_lt hi)
  apply daily_ext
  · rw [calc_keys, calc_keys]
  · rw [calc_keys, calc_keys]; exact hknd
  · intro d
    by_cases hd : d ∈ ds
    · obtain ⟨i, hi, hgd⟩ : ∃ i, i < ds.length ∧ ds.getD i "" = d := by
        obtain ⟨i, hi, he⟩ := List.getElem_of_mem hd
        exact ⟨i, hi, by rw [List.getD_eq_getElem ds "" hi]; exact he⟩
      subst hgd
      rw [calc_lookup _ ds hnd hp2 i hi, calc_lookup daily ds hnd hp i hi]
      obtain ⟨m, hm⟩ := Option.isSome_iff_exists.mp (hp i hi)
      rw [hm]
      simp only [Option.map_some']
      rw [applyRolling_congr (pvAt_eq_of_pvPres (calc_pvPres daily ds) ds) i
        (applyRolling (pvAt daily ds) i m), applyRolling_idem]
    · rw [calc_lookup_not_mem _ ds d hd, calc_lookup_not_mem daily ds d hd]

/-! ### Claim C1: rolling windows -/

/-- A raw daily record: only `pageviews`, every derived field absent. -/
def rawDM (pv : Nat) : DailyMetric := ⟨pv, none, none, none, none⟩

/-- C1: for a daily series with ascending (contiguous) dates and no
pre-computed rolling fields, `_calculateRollingMetrics` sets `rolling_7` at
0-based index `i` to the exact sum of `pageviews` over indices `i-6 .. i`
whenever `i ≥ 6` and leaves it undefined for `i < 6`; analogously
`rolling_28` sums indices `i-27 .. i` for `i ≥ 27` and is undefined below.
(Date contiguity is a calendar-level reading of the index arithmetic and
does not appear in the computation itself.) -/
theorem rolling_window_exact_sums (daily : Daily) (ds : List String)
    (hds : ds = daily.map Prod.fst) (hnd : ds.Nodup)
    (hsorted : List.Pairwise (fun a b => strLe a b = true) ds)
    (hraw : ∀ e ∈ daily, e.2.rolling_7 = none ∧ e.2.rolling_28 = none)
    (i : Nat) (hi : i < ds.length) :
    (lookupDate (calculateRollingMetrics daily ds) (ds.getD i "")).map (·.rolling_7) =
      some (if 6 ≤ i then some (windowSum (pvAt daily ds) (i - 6) i) else none) ∧
    (lookupDate (calculateRollingMetrics daily ds) (ds.getD i "")).map (·.rolling_28) =
      some (if 27 ≤ i then some (windowSum (pvAt daily ds) (i - 27) i) else none) := by
  have hp : ∀ j, j < ds.length → (lookupDate daily (ds.getD j "")).isSome := by
    intro j hj
    rw [lookupDate_isSome_iff, ← hds]
    exact getD_mem_of_lt hj
  obtain ⟨m, hm⟩ := Option.isSome_iff_exists.mp (hp i hi)
  have hraw' := hraw _ (lookupDate_mem hm)
  rw [calc_lookup daily ds hnd hp i hi, hm]
  simp only [Option.map_some']
  constructor
  · simp only [applyRolling, Option.some.injEq]
    rw [hraw'.1]
  · simp only [applyRolling, Option.some.injEq]
    rw [hraw'.2]

/-- An ascending 8-day raw series used as a concrete witness. -/
def exSeries1 : Daily :=
  [("2024-01-01", rawDM 10), ("2024-01-02", rawDM 20), ("2024-01-03", rawDM 30),
   ("2024-01-04", rawDM 40), ("2024-01-05", rawDM 50), ("2024-01-06", rawDM 60),
   ("2024-01-07", rawDM 70), ("2024-01-08", rawDM 80)]

/-- The date keys of `exSeries1`, ascending. -/
def exDates1 : List String := exSeries1.map Prod.fst

/-- Witness for C1 at `i = 7`: all hypotheses hold for `exSeries1` and the
conclusion follows by applying the theorem. -/
theorem rolling_window_exact_sums_witness :
    (exDates1 = exSeries1.map Prod.fst ∧ exDates1.Nodup ∧
      List.Pairwise (fun a b => strLe a b = true) exDates1 ∧
      (∀ e ∈ exSeries1, e.2.rolling_7 = none ∧ e.2.rolling_28 = none) ∧
      7 < exDates1.length) ∧
    ((lookupDate (calculateRollingMetrics exSeries1 exDates1) (exDates1.getD 7 "")).map
        (·.rolling_7) =
      some (if 6 ≤ 7 then some (windowSum (pvAt exSeries1 exDates1) (7 - 6) 7) else none) ∧
    (lookupDate (calculateRollingMetrics exSeries1 exDates1) (exDates1.getD 7 "")).map
        (·.rolling_28) =
      some (if 27 ≤ 7 then some (windowSum (pvAt exSeries1 exDates1) (7 - 27) 7) else none)) :=
  ⟨⟨rfl, by decide, by decide, by decide, by decide⟩,
    rolling_window_exact_sums exSeries1 exDates1 rfl (by decide) (by decide) (by decide)
      7 (by decide)⟩

/-! ### Claim C4: overwrite semantics and idempotence -/

/-- A 7-day series whose last record arrives with a pre-populated
`rolling_7 = 999` from upstream. -/
def exSeries4 : Daily :=
  [("2024-01-01", rawDM 1), ("2024-01-02", rawDM 1), ("2024-01-03", rawDM 1),
   ("2024-01-04", rawDM 1), ("2024-01-05", rawDM 1), ("2024-01-06", rawDM 1),
   ("2024-01-07", ⟨1, some 999, none, none, none⟩)]

/-- The date keys of `exSeries4`, ascending. -/
def exDates4 : List String := exSeries4.map Prod.fst

/-- Counterexample to C4 as stated: the record at index 6 already carries
`rolling_7 = 999`, yet `_calculateRollingMetrics` overwrites it with the
recomputed window sum 7 — the calculator does NOT leave already-present
rolling fields untouched. -/
theorem rolling_recompute_counterexample :
    (lookupDate exSeries4 "2024-01-07").map (·.rolling_7) = some (some 999) ∧
    (lookupDate (calculateRollingMetrics exSeries4 exDates4) "2024-01-07").map (·.rolling_7) =
      some (some 7) ∧
    some (7 : Nat) ≠ some 999 := by decide

/-- C4 (amended): `_calculateRollingMetrics` unconditionally overwrites
`rolling_7` at every index `i ≥ 6` with the window sum recomputed from
`pageviews`, whether or not a value was already present; it is nevertheless
idempotent — all its writes depend only on `pageviews`, which it never
changes, so re-running it on its own output is a no-op. -/
theorem rolling_overwrites_and_idempotent (daily : Daily) (ds : List String)
    (hds : ds = daily.map Prod.fst) (hnd : ds.Nodup) :
    calculateRollingMetrics (calculateRollingMetrics daily ds) ds =
      calculateRollingMetrics daily ds ∧
    ∀ i, i < ds.length → 6 ≤ i →
      (lookupDate (calculateRollingMetrics daily ds) (ds.getD i "")).map (·.rolling_7) =
        some (some (windowSum (pvAt daily ds) (i - 6) i)) := by
  have hknd : (daily.map Prod.fst).Nodup := hds ▸ hnd
  have hkeys : ∀ d, d ∈ ds ↔ d ∈ daily.map Prod.fst := by
    intro d; rw [hds]
  have hp : ∀ j, j < ds.length → (lookupDate daily (ds.getD j "")).isSome := by
    intro j hj
    rw [lookupDate_isSome_iff, ← hds]
    exact getD_mem_of_lt hj
  refine ⟨calc_idem daily ds hnd hknd hkeys, ?_⟩
  intro i hi h6
  obtain ⟨m, hm⟩ := Option.isSome_iff_exists.mp (hp i hi)
  rw [calc_lookup daily ds hnd hp i hi, hm]
  simp only [Option.map_some', Option.some.injEq, applyRolling]
  rw [if_pos h6]

/-- Witness for the amended C4 on the concrete series `exSeries4`
(whose last record carries an upstream `rolling_7`). -/
theorem rolling_overwrites_and_idempotent_witness :
    (exDates4 = exSeries4.map Prod.fst ∧ exDates4.Nodup) ∧
    (calculateRollingMetrics (calculateRollingMetrics exSeries4 exDates4) exDates4 =
      calculateRollingMetrics exSeries4 exDates4 ∧
    ∀ i, i < exDates4.length → 6 ≤ i →
      (lookupDate (calculateRollingMetrics exSeries4 exDates4) (exDates4.getD i "")).map
          (·.rolling_7) =
        some (some (windowSum (pvAt exSeries4 exDates4) (i - 6) i))) :=
  ⟨⟨rfl, by decide⟩, rolling_overwrites_and_idempotent exSeries4 exDates4 rfl (by decide)⟩

/-! ### Claims C5 and C6: growth values -/

/-- Full characterization of the calculator's output on a raw series
(no derived field present upstream): each output record is determined by
the pageview sequence alone. -/
theorem calc_raw_fields (daily : Daily) (ds : List String)
    (hds : ds = daily.map Prod.fst) (hnd : ds.Nodup)
    (hraw : ∀ e ∈ daily, e.2.rolling_7 = none ∧ e.2.rolling_28 = none ∧
      e.2.growth_7 = none ∧ e.2.growth_28 = none)
    (i : Nat) (hi : i < ds.length) :
    lookupDate (calculateRollingMetrics daily ds) (ds.getD i "") = some
      { pageviews := pvAt daily ds i
        rolling_7 := if 6 ≤ i then some (windowSum (pvAt daily ds) (i - 6) i) else none
        rolling_28 := if 27 ≤ i then some (windowSum (pvAt daily ds) (i - 27) i) else none
        growth_7 :=
          if 13 ≤ i ∧ 0 < windowSum (pvAt daily ds) (i - 13) (i - 7) then
            some (growthVal (windowSum (pvAt daily ds) (i - 6) i)
              (windowSum (pvAt daily ds) (i - 13) (i - 7)))
          else none
        growth_28 :=
          if 55 ≤ i ∧ 0 < windowSum (pvAt daily ds) (i - 55) (i - 28) then
            some (growthVal (windowSum (pvAt daily ds) (i - 27) i)
              (windowSum (pvAt daily ds) (i - 55) (i - 28)))
          else none } := by
  have hp : ∀ j, j < ds.length → (lookupDate daily (ds.getD j "")).isSome := by
    intro j hj
    rw [lookupDate_isSome_iff, ← hds]
    exact getD_mem_of_lt hj
  obtain ⟨m, hm⟩ := Option.isSome_iff_exists.mp (hp i hi)
  obtain ⟨h1, h2, h3, h4⟩ := hraw _ (lookupDate_mem hm)
  have hpv : pvAt daily ds i = m.pageviews := by
    unfold pvAt
    rw [hm]
    rfl
  rw [calc_lookup daily ds hnd hp i hi, hm]
  simp only [Option.map_some', Option.some.injEq, applyRolling]
  rw [h1, h2, h3, h4, hpv]

/-- C5: on a raw series, the calculator's `growth_7[i]` equals
`(rolling_7[i] / rolling_7[i-7] - 1) * 100` over the rolling sums it
produced, and is defined exactly when both `rolling_7[i]` and
`rolling_7[i-7]` are defined and `rolling_7[i-7] > 0`; analogously for
`growth_28` with lag 28. -/
theorem growth_defined_iff (daily : Daily) (ds : List String)
    (hds : ds = daily.map Prod.fst) (hnd : ds.Nodup)
    (hraw : ∀ e ∈ daily, e.2.rolling_7 = none ∧ e.2.rolling_28 = none ∧
      e.2.growth_7 = none ∧ e.2.growth_28 = none)
    (i : Nat) (hi : i < ds.length) :
    (∀ g : ℚ,
      (lookupDate (calculateRollingMetrics daily ds) (ds.getD i "")).bind (·.growth_7) =
          some g ↔
        ∃ a b : Nat,
          (lookupDate (calculateRollingMetrics daily ds) (ds.getD i "")).bind (·.rolling_7) =
            some a ∧
          (lookupDate (calculateRollingMetrics daily ds) (ds.getD (i - 7) "")).bind
            (·.rolling_7) = some b ∧
          0 < b ∧ g = growthVal a b) ∧
    (∀ g : ℚ,
      (lookupDate (calculateRollingMetrics daily ds) (ds.getD i "")).bind (·.growth_28) =
          some g ↔
        ∃ a b : Nat,
          (lookupDate (calculateRollingMetrics daily ds) (ds.getD i "")).bind (·.rolling_28) =
            some a ∧
          (lookupDate (calculateRollingMetrics daily ds) (ds.getD (i - 28) "")).bind
            (·.rolling_28) = some b ∧
          0 < b ∧ g = growthVal a b) := by
  have hi7 : i - 7 < ds.length := lt_of_le_of_lt (Nat.sub_le i 7) hi
  have hi28 : i - 28 < ds.length := lt_of_le_of_lt (Nat.sub_le i 28) hi
  rw [calc_raw_fields daily ds hds hnd hraw i hi,
    calc_raw_fields daily ds hds hnd hraw (i - 7) hi7,
    calc_raw_fields daily ds hds hnd hraw (i - 28) hi28]
  have he7 : i - 7 - 6 = i - 13 := by omega
  have he28 : i - 28 - 27 = i - 55 := by omega
  rw [he7, he28]
  simp only [Option.some_bind]
  constructor
  · intro g
    constructor
    · intro h
      have hc : 13 ≤ i ∧ 0 < windowSum (pvAt daily ds) (i - 13) (i - 7) := by
        by_contra hc
        rw [if_neg hc] at h
        exact Option.noConfusion h
      rw [if_pos hc] at h
      have h6 : 6 ≤ i := by omega
      have h67 : 6 ≤ i - 7 := by omega
      refine ⟨windowSum (pvAt daily ds) (i - 6) i,
        windowSum (pvAt daily ds) (i - 13) (i - 7), ?_, ?_, hc.2, ?_⟩
      · rw [if_pos h6]
      · rw [if_pos h67]
      · exact (Option.some.inj h).symm
    · rintro ⟨a, b, ha, hb, hbpos, hg⟩
      have h67 : 6 ≤ i - 7 := by
        by_contra hc
        rw [if_neg hc] at hb
        exact Option.noConfusion hb
      have h13 : 13 ≤ i := by omega
      have h6 : 6 ≤ i := by omega
      rw [if_pos h67] at hb
      rw [if_pos h6] at ha
      have hb' := Option.some.inj hb
      have ha' := Option.some.inj ha
      rw [if_pos (And.intro h13 (hb' ▸ hbpos))]
      rw [hg, ← ha', ← hb']
  · intro g
    constructor
    · intro h
      have hc : 55 ≤ i ∧ 0 < windowSum (pvAt daily ds) (i - 55) (i - 28) := by
        by_contra hc
        rw [if_neg hc] at h
        exact Option.noConfusion h
      rw [if_pos hc] at h
      have h27 : 27 ≤ i := by omega
      have h2728 : 27 ≤ i - 28 := by omega
      refine ⟨windowSum (pvAt daily ds) (i - 27) i,
        windowSum (pvAt daily ds) (i - 55) (i - 28), ?_, ?_, hc.2, ?_⟩
      · rw [if_pos h27]
      · rw [if_pos h2728]
      · exact (Option.some.inj h).symm
    · rintro ⟨a, b, ha, hb, hbpos, hg⟩
      have h2728 : 27 ≤ i - 28 := by
        by_contra hc
        rw [if_neg hc] at hb
        exact Option.noConfusion hb
      have h55 : 55 ≤ i := by omega
      have h27 : 27 ≤ i := by omega
      rw [if_pos h2728] at hb
      rw [if_pos h27] at ha
      have hb' := Option.some.inj hb
      have ha' := Option.some.inj ha
      rw [if_pos (And.intro h55 (hb' ▸ hbpos))]
      rw [hg, ← ha', ← hb']

/-- Witness for C5 at `i = 7` on the concrete raw series `exSeries1`. -/
theorem growth_defined_iff_witness :
    (exDates1 = exSeries1.map Prod.fst ∧ exDates1.Nodup ∧
      (∀ e ∈ exSeries1, e.2.rolling_7 = none ∧ e.2.rolling_28 = none ∧
        e.2.growth_7 = none ∧ e.2.growth_28 = none) ∧ 7 < exDates1.length) ∧
    ((∀ g : ℚ,
      (lookupDate (calculateRollingMetrics exSeries1 exDates1) (exDates1.getD 7 "")).bind
          (·.growth_7) = some g ↔
        ∃ a b : Nat,
          (lookupDate (calculateRollingMetrics exSeries1 exDates1) (exDates1.getD 7 "")).bind
            (·.rolling_7) = some a ∧
          (lookupDate (calculateRollingMetrics exSeries1 exDates1)
            (exDates1.getD (7 - 7) "")).bind (·.rolling_7) = some b ∧
          0 < b ∧ g = growthVal a b) ∧
    (∀ g : ℚ,
      (lookupDate (calculateRollingMetrics exSeries1 exDates1) (exDates1.getD 7 "")).bind
          (·.growth_28) = some g ↔
        ∃ a b : Nat,
          (lookupDate (calculateRollingMetrics exSeries1 exDates1) (exDates1.getD 7 "")).bind
            (·.rolling_28) = some a ∧
          (lookupDate (calculateRollingMetrics exSeries1 exDates1)
            (exDates1.getD (7 - 28) "")).bind (·.rolling_28) = some b ∧
          0 < b ∧ g = growthVal a b)) :=
  ⟨⟨rfl, by decide, by decide, by decide⟩,
    growth_defined_iff exSeries1 exDates1 rfl (by decide) (by decide) 7 (by decide)⟩

/-- C6: on a raw series, growth is absent whenever the prior-period window
sum is zero (`windowSum = 0`) or undefined (`i` below the threshold), and
every growth value the calculator emits comes from the guarded branch with
a strictly positive denominator — never a division by zero (hence, in exact
arithmetic, never NaN or infinite). -/
theorem growth_never_unguarded (daily : Daily) (ds : List String)
    (hds : ds = daily.map Prod.fst) (hnd : ds.Nodup)
    (hraw : ∀ e ∈ daily, e.2.rolling_7 = none ∧ e.2.rolling_28 = none ∧
      e.2.growth_7 = none ∧ e.2.growth_28 = none)
    (i : Nat) (hi : i < ds.length) :
    ((i < 13 ∨ windowSum (pvAt daily ds) (i - 13) (i - 7) = 0) →
      (lookupDate (calculateRollingMetrics daily ds) (ds.getD i "")).bind (·.growth_7) =
        none) ∧
    (∀ g : ℚ,
      (lookupDate (calculateRollingMetrics daily ds) (ds.getD i "")).bind (·.growth_7) =
          some g →
        0 < windowSum (pvAt daily ds) (i - 13) (i - 7) ∧
        g = growthVal (windowSum (pvAt daily ds) (i - 6) i)
          (windowSum (pvAt daily ds) (i - 13) (i - 7))) ∧
    ((i < 55 ∨ windowSum (pvAt daily ds) (i - 55) (i - 28) = 0) →
      (lookupDate (calculateRollingMetrics daily ds) (ds.getD i "")).bind (·.growth_28) =
        none) ∧
    (∀ g : ℚ,
      (lookupDate (calculateRollingMetrics daily ds) (ds.getD i "")).bind (·.growth_28) =
          some g →
        0 < windowSum (pvAt daily ds) (i - 55) (i - 28) ∧
        g = growthVal (windowSum (pvAt daily ds) (i - 27) i)
          (windowSum (pvAt daily ds) (i - 55) (i - 28))) := by
  rw [calc_raw_fields daily ds hds hnd hraw i hi]
  simp only [Option.some_bind]
  refine ⟨?_, ?_, ?_, ?_⟩
  · intro hc
    rw [if_neg]
    rintro ⟨h13, hpos⟩
    rcases hc with hc | hc
    · omega
    · rw [hc] at hpos
      exact lt_irrefl 0 hpos
  · intro g hg
    have hc : 13 ≤ i ∧ 0 < windowSum (pvAt daily ds) (i - 13) (i - 7) := by
      by_contra hc
      rw [if_neg hc] at hg
      exact Option.noConfusion hg
    rw [if_pos hc] at hg
    exact ⟨hc.2, (Option.some.inj hg).symm⟩
  · intro hc
    rw [if_neg]
    rintro ⟨h55, hpos⟩
    rcases hc with hc | hc
    · omega
    · rw [hc] at hpos
      exact lt_irrefl 0 hpos
  · intro g hg
    have hc : 55 ≤ i ∧ 0 < windowSum (pvAt daily ds) (i - 55) (i - 28) := by
      by_contra hc
      rw [if_neg hc] at hg
      exact Option.noConfusion hg
    rw [if_pos hc] at hg
    exact ⟨hc.2, (Option.some.inj hg).symm⟩

/-- Witness for C6 at `i = 3` on the concrete raw series `exSeries1`. -/
theorem growth_never_unguarded_witness :
    (exDates1 = exSeries1.map Prod.fst ∧ exDates1.Nodup ∧
      (∀ e ∈ exSeries1, e.2.rolling_7 = none ∧ e.2.rolling_28 = none ∧
        e.2.growth_7 = none ∧ e.2.growth_28 = none) ∧ 3 < exDates1.length) ∧
    (((3 < 13 ∨ windowSum (pvAt exSeries1 exDates1) (3 - 13) (3 - 7) = 0) →
      (lookupDate (calculateRollingMetrics exSeries1 exDates1) (exDates1.getD 3 "")).bind
        (·.growth_7) = none) ∧
    (∀ g : ℚ,
      (lookupDate (calculateRollingMetrics exSeries1 exDates1) (exDates1.getD 3 "")).bind
          (·.growth_7) = some g →
        0 < windowSum (pvAt exSeries1 exDates1) (3 - 13) (3 - 7) ∧
        g = growthVal (windowSum (pvAt exSeries1 exDates1) (3 - 6) 3)
          (windowSum (pvAt exSeries1 exDates1) (3 - 13) (3 - 7))) ∧
    ((3 < 55 ∨ windowSum (pvAt exSeries1 exDates1) (3 - 55) (3 - 28) = 0) →
      (lookupDate (calculateRollingMetrics exSeries1 exDates1) (exDates1.getD 3 "")).bind
        (·.growth_28) = none) ∧
    (∀ g : ℚ,
      (lookupDate (calculateRollingMetrics exSeries1 exDates1) (exDates1.getD 3 "")).bind
          (·.growth_28) = some g →
        0 < windowSum (pvAt exSeries1 exDates1) (3 - 55) (3 - 28) ∧
        g = growthVal (windowSum (pvAt exSeries1 exDates1) (3 - 27) 3)
          (windowSum (pvAt exSeries1 exDates1) (3 - 55) (3 - 28)))) :=
  ⟨⟨rfl, by decide, by decide, by decide⟩,
    growth_never_unguarded exSeries1 exDates1 rfl (by decide) (by decide) 3 (by decide)⟩

/-! ### `DashboardUI._aggregateAllCountries` (lines 83–127)

The aggregator receives the raw per-country data: a mapping whose values are
objects with an optional `daily` series. It builds the union of all dates,
initializes every union date with zeroes for all five fields, adds per-country
pageviews — and, when truthy, per-country `rolling_7`/`rolling_28` values —
and finally runs `_calculateRollingMetrics` only when the earliest sorted
date ended up with a falsy (zero) `rolling_7`. -/

/-- A non-null per-country value `{daily?: {...}}`; `none` models a
falsy/absent `daily` (skipped by the aggregator's guards). A segment value
that is `null`/`undefined` — on which `country.daily` itself throws — is a
separate constructor of `SegVal` below, not representable here. -/
structure Country where
  daily : Option Daily
  deriving Repr, DecidableEq

/-- `Set.add`: JavaScript `Set` keeps first-occurrence insertion order. -/
def insertUnique (acc : List String) (d : String) : List String :=
  if d ∈ acc then acc else acc ++ [d]

/-- The date-collection pass for one country
(`Object.keys(country.daily).forEach(date => allDates.add(date))`,
skipped when `country.daily` is falsy). -/
def addCountryDates (acc : List String) (c : Country) : List String :=
  match c.daily with
  | none => acc
  | some es => es.foldl (fun a e => insertUnique a e.1) acc

/-- `allDates`: the union of all countries' date keys, in first-occurrence
order. -/
def allDatesOf (cs : List Country) : List String :=
  cs.foldl addCountryDates []

/-- The zero record the aggregator materializes for every union date
(lines 95–103): every field present and equal to 0. -/
def zeroInit : DailyMetric :=
  ⟨0, some 0, some 0, some (0 : ℚ), some (0 : ℚ)⟩

/-- Lines 95–103: initialize `allMetrics.daily` with a zero record per date. -/
def initDaily (dates : List String) : Daily :=
  dates.map (fun d => (d, zeroInit))

/-- Lines 109–117: add one country's record for one date into the
accumulated record: `pageviews += metrics.pageviews`, then
`rolling_7 += metrics.rolling_7` if truthy, then `rolling_28` likewise.
Growth fields are never touched. -/
def addMetrics (m acc : DailyMetric) : DailyMetric :=
  let a1 := { acc with pageviews := acc.pageviews + m.pageviews }
  let a2 :=
    if m.rolling_7.getD 0 ≠ 0 then
      { a1 with rolling_7 := some (a1.rolling_7.getD 0 + m.rolling_7.getD 0) }
    else a1
  if m.rolling_28.getD 0 ≠ 0 then
    { a2 with rolling_28 := some (a2.rolling_28.getD 0 + m.rolling_28.getD 0) }
  else a2

/-- Lines 106–118: fold one country's daily entries into the accumulated
series (countries with falsy `daily` are skipped). -/
def combineCountry (st : Daily) (c : Country) : Daily :=
  match c.daily with
  | none => st
  | some es => es.foldl (fun acc e => modifyDate acc e.1 (addMetrics e.2)) st

/-- The aggregated series before the rolling-recomputation decision:
zero-initialized union dates combined over all countries. -/
def aggCombine (cs : List Country) : Daily :=
  cs.foldl combineCountry (initDaily (allDatesOf cs))

/-- `DashboardUI._aggregateAllCountries` restricted to inputs whose segment
values are all non-null (the full embedding, including the `TypeError` on a
`null` segment value, is `aggregateAllCountriesV` below). Returns `none`
when the JavaScript code throws: with an empty date union, `datesSorted[0]`
is `undefined` and `allMetrics.daily[undefined].rolling_7` raises a
`TypeError` (line 122). Otherwise, `_calculateRollingMetrics` runs exactly
when the earliest sorted date's accumulated `rolling_7` is falsy. -/
def aggregateAllCountries (cs : List Country) : Option Daily :=
  let allDaily := aggCombine cs
  let datesSorted := sortStr (allDaily.map Prod.fst)
  match datesSorted with
  | [] => none
  | d0 :: _ =>
    if ((lookupDate allDaily d0).getD default).rolling_7.getD 0 ≠ 0 then some allDaily
    else some (calculateRollingMetrics allDaily datesSorted)

/-- A raw per-segment value as the aggregator's `Object.values` sees it:
either `null`/`undefined` — on which the guard `if (!country.daily)` at
line 90 (and again line 107) throws a `TypeError` — or a non-null value
whose `daily` access yields an optional series (primitives yield
`undefined`, i.e. `daily = none`, and are skipped). -/
inductive SegVal where
  | nullSeg
  | country (c : Country)
  deriving Repr, DecidableEq

/-- One step of the date-collection `forEach` (lines 89–92): `country.daily`
on a `null` value throws; otherwise the country's date keys are collected
(or skipped when `daily` is falsy). -/
def addSegDates (acc : List String) (v : SegVal) : Except Unit (List String) :=
  match v with
  | .nullSeg => .error ()
  | .country c => .ok (addCountryDates acc c)

/-- The date-collection pass over all segment values (lines 88–92),
throwing at the first `null` value. -/
def allDatesE : List SegVal → List String → Except Unit (List String)
  | [], acc => .ok acc
  | v :: rest, acc =>
    match addSegDates acc v with
    | .error e => .error e
    | .ok acc' => allDatesE rest acc'

/-- One step of the combine `forEach` (lines 106–118): `country.daily` on a
`null` value throws here as well. -/
def combineSeg (st : Daily) (v : SegVal) : Except Unit Daily :=
  match v with
  | .nullSeg => .error ()
  | .country c => .ok (combineCountry st c)

/-- The combine pass over all segment values (lines 106–118). -/
def combineAllE : List SegVal → Daily → Except Unit Daily
  | [], st => .ok st
  | v :: rest, st =>
    match combineSeg st v with
    | .error e => .error e
    | .ok st' => combineAllE rest st'

/-- `DashboardUI._aggregateAllCountries` on the raw segment values as
stored: a `null` segment value makes the date-collection pass throw
(line 90) before anything is returned; an empty date union makes line 122
throw; otherwise the combined series is produced, with the rolling pass run
exactly when the earliest sorted date's accumulated `rolling_7` is falsy. -/
def aggregateAllCountriesV (vs : List SegVal) : Option Daily :=
  match allDatesE vs [] with
  | .error _ => none
  | .ok dates =>
    match combineAllE vs (initDaily dates) with
    | .error _ => none
    | .ok allDaily =>
      let datesSorted := sortStr (allDaily.map Prod.fst)
      match datesSorted with
      | [] => none
      | d0 :: _ =>
        if ((lookupDate allDaily d0).getD default).rolling_7.getD 0 ≠ 0 then some allDaily
        else some (calculateRollingMetrics allDaily datesSorted)

/-! ### Aggregator: keys, membership, uniqueness -/

theorem keys_initDaily (dates : List String) : (initDaily dates).map Prod.fst = dates := by
  unfold initDaily
  rw [List.map_map]
  exact List.map_id dates

theorem keys_entries_fold (es : List (String × DailyMetric)) :
    ∀ st : Daily, ((es.foldl (fun acc e => modifyDate acc e.1 (addMetrics e.2)) st)).map
      Prod.fst = st.map Prod.fst := by
  induction es with
  | nil => intro st; rfl
  | cons e rest ih =>
    intro st
    rw [List.foldl_cons, ih, keys_modifyDate]

theorem keys_combineCountry (st : Daily) (c : Country) :
    (combineCountry st c).map Prod.fst = st.map Prod.fst := by
  unfold combineCountry
  cases c.daily with
  | none => rfl
  | some es => exact keys_entries_fold es st

theorem keys_aggFold (cs : List Country) :
    ∀ st : Daily, (cs.foldl combineCountry st).map Prod.fst = st.map Prod.fst := by
  induction cs with
  | nil => intro st; rfl
  | cons c rest ih =>
    intro st
    rw [List.foldl_cons, ih, keys_combineCountry]

theorem keys_aggCombine (cs : List Country) :
    (aggCombine cs).map Prod.fst = allDatesOf cs := by
  unfold aggCombine
  rw [keys_aggFold, keys_initDaily]

theorem mem_insertUnique (acc : List String) (d x : String) :
    x ∈ insertUnique acc d ↔ x ∈ acc ∨ x = d := by
  unfold insertUnique
  split_ifs with h
  · constructor
    · exact Or.inl
    · rintro (hx | rfl)
      · exact hx
      · exact h
  · simp [List.mem_append]

theorem nodup_insertUnique (acc : List String) (d : String) (h : acc.Nodup) :
    (insertUnique acc d).Nodup := by
  unfold insertUnique
  split_ifs with hm
  · exact h
  · rw [List.nodup_append]
    refine ⟨h, List.nodup_singleton d, ?_⟩
    intro a ha had
    rw [List.mem_singleton] at had
    exact hm (had ▸ ha)

theorem mem_dates_fold (es : List (String × DailyMetric)) :
    ∀ (acc : List String) (x : String),
      x ∈ es.foldl (fun a e => insertUnique a e.1) acc ↔ x ∈ acc ∨ x ∈ es.map Prod.fst := by
  induction es with
  | nil => intro acc x; simp
  | cons e rest ih =>
    intro acc x
    rw [List.foldl_cons, ih, mem_insertUnique]
    simp [or_assoc, eq_comm]

theorem nodup_dates_fold (es : List (String × DailyMetric)) :
    ∀ acc : List String, acc.Nodup → (es.foldl (fun a e => insertUnique a e.1) acc).Nodup := by
  induction es with
  | nil => intro acc h; exact h
  | cons e rest ih =>
    intro acc h
    rw [List.foldl_cons]
    exact ih _ (nodup_insertUnique acc e.1 h)

theorem mem_addCountryDates (acc : List String) (c : Country) (x : String) :
    x ∈ addCountryDates acc c ↔
      x ∈ acc ∨ ∃ es, c.daily = some es ∧ x ∈ es.map Prod.fst := by
  unfold addCountryDates
  cases hc : c.daily with
  | none => simp
  | some es => rw [mem_dates_fold]; simp

theorem nodup_addCountryDates (acc : List String) (c : Country) (h : acc.Nodup) :
    (addCountryDates acc c).Nodup := by
  unfold addCountryDates
  cases c.daily with
  | none => exact h
  | some es => exact nodup_dates_fold es acc h

theorem mem_allDates_fold (cs : List Country) :
    ∀ (acc : List String) (x : String),
      x ∈ cs.foldl addCountryDates acc ↔
        x ∈ acc ∨ ∃ c ∈ cs, ∃ es, c.daily = some es ∧ x ∈ es.map Prod.fst := by
  induction cs with
  | nil => intro acc x; simp
  | cons c rest ih =>
    intro acc x
    rw [List.foldl_cons, ih, mem_addCountryDates]
    constructor
    · rintro ((hx | ⟨es, hes, hmem⟩) | ⟨c', hc', es, hes, hmem⟩)
      · exact Or.inl hx
      · exact Or.inr ⟨c, List.mem_cons_self c rest, es, hes, hmem⟩
      · exact Or.inr ⟨c', List.mem_cons_of_mem c hc', es, hes, hmem⟩
    · rintro (hx | ⟨c', hc', es, hes, hmem⟩)
      · exact Or.inl (Or.inl hx)
      · rcases List.mem_cons.mp hc' with rfl | hc'
        · exact Or.inl (Or.inr ⟨es, hes, hmem⟩)
        · exact Or.inr ⟨c', hc', es, hes, hmem⟩

theorem mem_allDatesOf (cs : List Country) (x : String) :
    x ∈ allDatesOf cs ↔ ∃ c ∈ cs, ∃ es, c.daily = some es ∧ x ∈ es.map Prod.fst := by
  unfold allDatesOf
  rw [mem_allDates_fold]
  simp

theorem nodup_allDatesOf (cs : List Country) : (allDatesOf cs).Nodup := by
  unfold allDatesOf
  have h : ∀ (acc : List String), acc.Nodup → (cs.foldl addCountryDates acc).Nodup := by
    induction cs with
    | nil => intro acc h; exact h
    | cons c rest ih =>
      intro acc h
      rw [List.foldl_cons]
      exact ih _ (nodup_addCountryDates acc c h)
  exact h [] List.nodup_nil

/-! ### Aggregator: per-date record characterization -/

/-- One country's record for date `d` (`undefined` when the country has no
`daily` or no record for `d`). -/
def segLookup (c : Country) (d : String) : Option DailyMetric :=
  match c.daily with
  | none => none
  | some es => lookupDate es d

/-- The effect on the accumulated record at date `d` of folding one country
through lines 109–117: a country without a record for `d` contributes
nothing. -/
def combineRec (c : Country) (d : String) (acc : DailyMetric) : DailyMetric :=
  match segLookup c d with
  | none => acc
  | some met => addMetrics met acc

/-- A country's pageview contribution for date `d`: 0 when absent. -/
def segPageviews (c : Country) (d : String) : Nat :=
  ((segLookup c d).getD default).pageviews

/-- A country's `rolling_7` contribution for date `d`: its value when
present (a falsy 0 contributes 0 either way), else 0. -/
def segRolling7 (c : Country) (d : String) : Nat :=
  ((segLookup c d).bind (·.rolling_7)).getD 0

/-- A country's `rolling_28` contribution for date `d`. -/
def segRolling28 (c : Country) (d : String) : Nat :=
  ((segLookup c d).bind (·.rolling_28)).getD 0

/-- Every key of a country's `daily` object is unique (JavaScript object). -/
def segNodup (c : Country) : Prop :=
  ∀ es, c.daily = some es → (es.map Prod.fst).Nodup

theorem lookupDate_entries_fold_not_mem (es : List (String × DailyMetric)) :
    ∀ (st : Daily) (d : String), d ∉ es.map Prod.fst →
      lookupDate (es.foldl (fun acc e => modifyDate acc e.1 (addMetrics e.2)) st) d =
        lookupDate st d := by
  induction es with
  | nil => intro st d _; rfl
  | cons e rest ih =>
    intro st d hd
    rw [List.map_cons, List.mem_cons] at hd
    push_neg at hd
    rw [List.foldl_cons, ih _ d hd.2, lookupDate_modifyDate_ne _ _ _ _ hd.1]

theorem lookupDate_entries_fold (es : List (String × DailyMetric))
    (hnd : (es.map Prod.fst).Nodup) (st : Daily) (d : String) :
    lookupDate (es.foldl (fun acc e => modifyDate acc e.1 (addMetrics e.2)) st) d =
      (match lookupDate es d with
       | none => lookupDate st d
       | some met => (lookupDate st d).map (addMetrics met)) := by
  induction es generalizing st with
  | nil => rfl
  | cons e rest ih =>
    obtain ⟨k, met⟩ := e
    rw [List.map_cons] at hnd
    have hnd' := (List.nodup_cons.mp hnd).2
    have hknotin := (List.nodup_cons.mp hnd).1
    rw [List.foldl_cons, lookupDate_cons]
    by_cases hk : k = d
    · subst hk
      have hnone : lookupDate rest k = none :=
        (lookupDate_eq_none_iff rest k).mpr hknotin
      rw [if_pos rfl, lookupDate_entries_fold_not_mem rest _ k hknotin,
        lookupDate_modifyDate_self]
    · rw [if_neg hk, ih hnd', lookupDate_modifyDate_ne _ _ _ _ (fun hc => hk hc.symm)]

theorem lookup_combineCountry (st : Daily) (c : Country) (d : String) (hnd : segNodup c) :
    lookupDate (combineCountry st c) d = (lookupDate st d).map (combineRec c d) := by
  cases hc : c.daily with
  | none =>
    have h1 : combineCountry st c = st := by unfold combineCountry; rw [hc]
    have h2 : ∀ acc, combineRec c d acc = acc := by
      intro acc; unfold combineRec segLookup; rw [hc]
    rw [h1]
    cases hst : lookupDate st d
    · rfl
    · rw [Option.map_some', h2]
  | some es =>
    have h1 : combineCountry st c =
        es.foldl (fun acc e => modifyDate acc e.1 (addMetrics e.2)) st := by
      unfold combineCountry; rw [hc]
    have h2 : ∀ acc, combineRec c d acc =
        (match lookupDate es d with | none => acc | some met => addMetrics met acc) := by
      intro acc; unfold combineRec segLookup; rw [hc]
    rw [h1, lookupDate_entries_fold es (hnd es hc) st d]
    cases hes : lookupDate es d <;> cases hst : lookupDate st d <;> simp [h2, hes]

theorem lookup_aggFold (cs : List Country) (hnd : ∀ c ∈ cs, segNodup c) :
    ∀ (st : Daily) (d : String),
      lookupDate (cs.foldl combineCountry st) d =
        (lookupDate st d).map
          (fun m => cs.foldl (fun acc c => combineRec c d acc) m) := by
  induction cs with
  | nil =>
    intro st d
    cases h : lookupDate st d
    · rw [List.foldl_nil, h]; rfl
    · rw [List.foldl_nil, h]; rfl
  | cons c rest ih =>
    intro st d
    have hc : segNodup c := hnd c (List.mem_cons_self c rest)
    have hrest : ∀ c' ∈ rest, segNodup c' := fun c' h => hnd c' (List.mem_cons_of_mem c h)
    rw [List.foldl_cons, ih hrest, lookup_combineCountry st c d hc]
    cases h : lookupDate st d <;> rfl

theorem combineRec_closed (c : Country) (d : String) (p a b : Nat) (g1 g2 : Option ℚ) :
    combineRec c d ⟨p, some a, some b, g1, g2⟩ =
      ⟨p + segPageviews c d, some (a + segRolling7 c d),
        some (b + segRolling28 c d), g1, g2⟩ := by
  unfold combineRec segPageviews segRolling7 segRolling28
  cases hsl : segLookup c d with
  | none => simp [default, Inhabited.default]
  | some met =>
    simp only [Option.some_bind, Option.getD_some]
    unfold addMetrics
    by_cases h7 : met.rolling_7.getD 0 = 0 <;> by_cases h28 : met.rolling_28.getD 0 = 0 <;>
      simp [h7, h28]

theorem foldl_combineRec_closed (cs : List Country) (d : String) :
    ∀ (p a b : Nat) (g1 g2 : Option ℚ),
      cs.foldl (fun acc c => combineRec c d acc) ⟨p, some a, some b, g1, g2⟩ =
        ⟨p + (cs.map (fun c => segPageviews c d)).sum,
          some (a + (cs.map (fun c => segRolling7 c d)).sum),
          some (b + (cs.map (fun c => segRolling28 c d)).sum), g1, g2⟩ := by
  induction cs with
  | nil => intro p a b g1 g2; simp
  | cons c rest ih =>
    intro p a b g1 g2
    rw [List.foldl_cons, combineRec_closed, ih]
    simp [Nat.add_assoc]

theorem lookup_initDaily (dates : List String) (d : String) (hd : d ∈ dates) :
    lookupDate (initDaily dates) d = some zeroInit := by
  induction dates with
  | nil => simp at hd
  | cons x rest ih =>
    rw [List.mem_cons] at hd
    unfold initDaily at ih ⊢
    rw [List.map_cons, lookupDate_cons]
    by_cases hx : x = d
    · rw [if_pos hx]
    · rw [if_neg hx]
      rcases hd with rfl | hd
      · exact absurd rfl hx
      · exact ih hd

/-- The combined record at any union date `d`, before the conditional
rolling recomputation: pageviews are summed over all countries, the
rolling fields hold the sum of the (truthy) per-country rolling values,
and the growth fields keep their initialized `0`. -/
theorem aggCombine_lookup (cs : List Country) (hnd : ∀ c ∈ cs, segNodup c)
    (d : String) (hd : d ∈ allDatesOf cs) :
    lookupDate (aggCombine cs) d = some
      ⟨(cs.map (fun c => segPageviews c d)).sum,
        some ((cs.map (fun c => segRolling7 c d)).sum),
        some ((cs.map (fun c => segRolling28 c d)).sum),
        some (0 : ℚ), some (0 : ℚ)⟩ := by
  unfold aggCombine
  rw [lookup_aggFold cs hnd _ d, lookup_initDaily _ _ hd]
  rw [Option.map_some']
  have h0 : zeroInit = ⟨0, some 0, some 0, some (0 : ℚ), some (0 : ℚ)⟩ := rfl
  rw [h0, foldl_combineRec_closed]
  simp

/-! ### Claim C2: the combined series sums pageviews over the union -/

/-- Whatever branch `_aggregateAllCountries` returns through, its key set is
the date union and its pageviews agree with the pre-recomputation combine
(the rolling pass never writes `pageviews`). -/
theorem aggregate_result_shape (cs : List Country) (res : Daily)
    (hres : aggregateAllCountries cs = some res) :
    res.map Prod.fst = allDatesOf cs ∧ pvPres res (aggCombine cs) := by
  simp only [aggregateAllCountries] at hres
  cases hs : sortStr ((aggCombine cs).map Prod.fst) with
  | nil => rw [hs] at hres; exact Option.noConfusion hres
  | cons d0 dtl =>
    simp only [hs] at hres
    split_ifs at hres with hcond
    · obtain rfl := Option.some.inj hres
      exact ⟨keys_aggCombine cs, pvPres_refl _⟩
    · obtain rfl := Option.some.inj hres
      refine ⟨?_, ?_⟩
      · rw [calc_keys, keys_aggCombine]
      · have h := calc_pvPres (aggCombine cs) (d0 :: dtl)
        exact h

/-- C2: for every `by_segment` input, the combined series' date set is the
union of the segments' dates, and at every union date the combined
`pageviews` equals the sum over segments of that segment's `pageviews`,
a segment without a record for the date contributing 0 (`segPageviews`).
The input `countryData` itself is never modified — the embedding is a pure
function of it. -/
theorem aggregate_pageviews_sum (cs : List Country) (hnd : ∀ c ∈ cs, segNodup c)
    (res : Daily) (hres : aggregateAllCountries cs = some res) :
    (∀ d, d ∈ res.map Prod.fst ↔
      ∃ c ∈ cs, ∃ es, c.daily = some es ∧ d ∈ es.map Prod.fst) ∧
    (∀ d, d ∈ res.map Prod.fst →
      (lookupDate res d).map (·.pageviews) =
        some ((cs.map (fun c => segPageviews c d)).sum)) := by
  obtain ⟨hkeys, hpv⟩ := aggregate_result_shape cs res hres
  constructor
  · intro d
    rw [hkeys, mem_allDatesOf]
  · intro d hd
    rw [hkeys] at hd
    rw [hpv d, aggCombine_lookup cs hnd d hd]
    rfl

/-- The spec's two-segment example input (`no` and `se` with overlapping
dates). -/
def exSeg2 : List Country :=
  [⟨some [("2024-01-01", rawDM 10), ("2024-01-02", rawDM 20)]⟩,
   ⟨some [("2024-01-02", rawDM 5), ("2024-01-03", rawDM 7)]⟩]

/-- The combined series `_aggregateAllCountries` produces for `exSeg2`
(the short series means the rolling pass runs but writes nothing). -/
def exAgg2 : Daily :=
  [("2024-01-01", ⟨10, some 0, some 0, some (0 : ℚ), some (0 : ℚ)⟩),
   ("2024-01-02", ⟨25, some 0, some 0, some (0 : ℚ), some (0 : ℚ)⟩),
   ("2024-01-03", ⟨7, some 0, some 0, some (0 : ℚ), some (0 : ℚ)⟩)]

/-- A country built from a concrete `some` series with unique keys satisfies
`segNodup`. -/
theorem segNodup_of_some {c : Country} {es : Daily} (hc : c.daily = some es)
    (h : (es.map Prod.fst).Nodup) : segNodup c := by
  intro es' hes'
  rw [hc] at hes'
  obtain rfl := Option.some.inj hes'
  exact h

/-- Witness for C2 on the two-segment example. -/
theorem aggregate_pageviews_sum_witness :
    ((∀ c ∈ exSeg2, segNodup c) ∧ aggregateAllCountries exSeg2 = some exAgg2) ∧
    ((∀ d, d ∈ exAgg2.map Prod.fst ↔
      ∃ c ∈ exSeg2, ∃ es, c.daily = some es ∧ d ∈ es.map Prod.fst) ∧
    (∀ d, d ∈ exAgg2.map Prod.fst →
      (lookupDate exAgg2 d).map (·.pageviews) =
        some ((exSeg2.map (fun c => segPageviews c d)).sum))) := by
  have hnd : ∀ c ∈ exSeg2, segNodup c := by
    intro c hc
    rcases List.mem_cons.mp hc with rfl | hc
    · exact segNodup_of_some rfl (by decide)
    · rcases List.mem_cons.mp hc with rfl | hc
      · exact segNodup_of_some rfl (by decide)
      · simp at hc
  exact ⟨⟨hnd, rfl⟩, aggregate_pageviews_sum exSeg2 hnd exAgg2 rfl⟩

/-! ### Claim C3: the aggregator's handling of rolling/growth fields -/

/-- Two segments supplying upstream `rolling_7` values (5 and 7) for the
same single date. -/
def exSeg3 : List Country :=
  [⟨some [("2024-01-01", ⟨1, some 5, none, none, none⟩)]⟩,
   ⟨some [("2024-01-01", ⟨2, some 7, none, none, none⟩)]⟩]

/-- Counterexample to C3 as stated: in the aggregator's output the combined
record's `rolling_7` is `some 12 = 5 + 7` — summed from the per-segment
rolling values, not left absent — and `growth_7` is the materialized `some 0`
rather than absent; the Rolling Window Calculator was not the source of the
12 (it can never write `rolling_7` at index 0). -/
theorem aggregator_sums_rolling_counterexample :
    (aggregateAllCountries exSeg3).map
        (fun res => (lookupDate res "2024-01-01").map
          (fun m => (m.rolling_7, m.growth_7))) =
      some (some (some 12, some (0 : ℚ))) ∧
    some (12 : Nat) ≠ (none : Option Nat) ∧
    some (0 : ℚ) ≠ (none : Option ℚ) :=
  ⟨rfl, by decide, by decide⟩

/-- C3 (amended): the aggregator does NOT leave rolling/growth fields absent
on the combined series. It materializes all of them as 0, then adds each
segment's truthy `rolling_7`/`rolling_28` into the combined record; the
growth fields are never summed and keep their initialized 0. (Whether the
Rolling Window Calculator subsequently overwrites the rolling sums is the
separate, conditional decision of line 122, characterized in
`earliest_falsy_rolling_triggers_recompute`.) -/
theorem aggregator_sums_rolling_amended (cs : List Country)
    (hnd : ∀ c ∈ cs, segNodup c) (d : String) (hd : d ∈ allDatesOf cs) :
    lookupDate (aggCombine cs) d = some
      ⟨(cs.map (fun c => segPageviews c d)).sum,
        some ((cs.map (fun c => segRolling7 c d)).sum),
        some ((cs.map (fun c => segRolling28 c d)).sum),
        some (0 : ℚ), some (0 : ℚ)⟩ :=
  aggCombine_lookup cs hnd d hd

/-- Witness for the amended C3 on `exSeg3`. -/
theorem aggregator_sums_rolling_amended_witness :
    ((∀ c ∈ exSeg3, segNodup c) ∧ "2024-01-01" ∈ allDatesOf exSeg3) ∧
    lookupDate (aggCombine exSeg3) "2024-01-01" = some
      ⟨(exSeg3.map (fun c => segPageviews c "2024-01-01")).sum,
        some ((exSeg3.map (fun c => segRolling7 c "2024-01-01")).sum),
        some ((exSeg3.map (fun c => segRolling28 c "2024-01-01")).sum),
        some (0 : ℚ), some (0 : ℚ)⟩ := by
  have hnd : ∀ c ∈ exSeg3, segNodup c := by
    intro c hc
    rcases List.mem_cons.mp hc with rfl | hc
    · exact segNodup_of_some rfl (by decide)
    · rcases List.mem_cons.mp hc with rfl | hc
      · exact segNodup_of_some rfl (by decide)
      · simp at hc
  have hd : "2024-01-01" ∈ allDatesOf exSeg3 := by decide
  exact ⟨⟨hnd, hd⟩, aggregator_sums_rolling_amended exSeg3 hnd "2024-01-01" hd⟩

/-! ### Claim C9: the conditional invocation of the rolling pass -/

theorem natList_sum_eq_zero_iff (l : List Nat) : l.sum = 0 ↔ ∀ x ∈ l, x = 0 := by
  induction l with
  | nil => simp
  | cons a l ih =>
    rw [List.sum_cons]
    constructor
    · intro h
      have ha : a = 0 := by omega
      have hl : l.sum = 0 := by omega
      intro x hx
      rcases List.mem_cons.mp hx with rfl | hx
      · exact ha
      · exact (ih.mp hl) x hx
    · intro h
      have ha := h a (List.mem_cons_self a l)
      have hl : l.sum = 0 := ih.mpr (fun x hx => h x (List.mem_cons_of_mem a hx))
      omega

/-- C9: with a nonempty date union, `_aggregateAllCountries` runs the
rolling pass if and only if the earliest sorted date's accumulated
`rolling_7` is falsy, i.e. the per-segment rolling contributions at that
date sum to 0; that sum is nonzero exactly when some segment supplies a
nonzero `rolling_7` there (in which case the segment-summed rolling values
survive unchanged, the output being `aggCombine cs` itself); otherwise the
rolling pass recomputes `rolling_7` from the combined pageviews at every
index from 6 onward. -/
theorem earliest_falsy_rolling_triggers_recompute (cs : List Country)
    (hnd : ∀ c ∈ cs, segNodup c) (hne : allDatesOf cs ≠ []) :
    (aggregateAllCountries cs = some
      (if (cs.map (fun c => segRolling7 c ((sortStr (allDatesOf cs)).getD 0 ""))).sum ≠ 0
       then aggCombine cs
       else calculateRollingMetrics (aggCombine cs) (sortStr (allDatesOf cs)))) ∧
    ((cs.map (fun c => segRolling7 c ((sortStr (allDatesOf cs)).getD 0 ""))).sum ≠ 0 ↔
      ∃ c ∈ cs, segRolling7 c ((sortStr (allDatesOf cs)).getD 0 "") ≠ 0) ∧
    ((cs.map (fun c => segRolling7 c ((sortStr (allDatesOf cs)).getD 0 ""))).sum = 0 →
      ∀ i, i < (sortStr (allDatesOf cs)).length → 6 ≤ i →
        (lookupDate (calculateRollingMetrics (aggCombine cs) (sortStr (allDatesOf cs)))
          ((sortStr (allDatesOf cs)).getD i "")).map (·.rolling_7) =
        some (some (windowSum (pvAt (aggCombine cs) (sortStr (allDatesOf cs)))
          (i - 6) i))) := by
  have hkeys := keys_aggCombine cs
  have hnodup_ds : (sortStr (allDatesOf cs)).Nodup := nodup_sortStr _ (nodup_allDatesOf cs)
  have hmem_ds : ∀ x, x ∈ sortStr (allDatesOf cs) ↔ x ∈ allDatesOf cs :=
    fun x => mem_sortStr x _
  have hne' : sortStr (allDatesOf cs) ≠ [] :=
    fun hc => hne ((sortStr_eq_nil_iff _).mp hc)
  obtain ⟨d0, dtl, hcons⟩ : ∃ d0 dtl, sortStr (allDatesOf cs) = d0 :: dtl := by
    cases hc : sortStr (allDatesOf cs) with
    | nil => exact absurd hc hne'
    | cons a b => exact ⟨a, b, rfl⟩
  have hd0 : (sortStr (allDatesOf cs)).getD 0 "" = d0 := by rw [hcons]; rfl
  have hd0mem : d0 ∈ allDatesOf cs := by
    rw [← hmem_ds, hcons]; exact List.mem_cons_self _ _
  have hlook := aggCombine_lookup cs hnd d0 hd0mem
  have hcondeq : ((lookupDate (aggCombine cs) d0).getD default).rolling_7.getD 0 =
      (cs.map (fun c => segRolling7 c d0)).sum := by rw [hlook]; rfl
  have hagg : aggregateAllCountries cs =
      (if ((lookupDate (aggCombine cs) d0).getD default).rolling_7.getD 0 ≠ 0
       then some (aggCombine cs)
       else some (calculateRollingMetrics (aggCombine cs) (d0 :: dtl))) := by
    simp only [aggregateAllCountries, hkeys, hcons]
  refine ⟨?_, ?_, ?_⟩
  · rw [hd0, hcons, hagg, hcondeq]
    split_ifs with hc
    · rfl
    · rfl
  · rw [hd0]
    constructor
    · intro hs
      by_contra hc
      push_neg at hc
      apply hs
      rw [natList_sum_eq_zero_iff]
      intro x hx
      obtain ⟨c, hcmem, rfl⟩ := List.mem_map.mp hx
      exact hc c hcmem
    · rintro ⟨c, hcmem, hcne⟩ hs
      exact hcne ((natList_sum_eq_zero_iff _).mp hs _
        (List.mem_map_of_mem _ hcmem))
  · intro _ i hi h6
    have hp : ∀ j, j < (sortStr (allDatesOf cs)).length →
        (lookupDate (aggCombine cs) ((sortStr (allDatesOf cs)).getD j "")).isSome := by
      intro j hj
      rw [lookupDate_isSome_iff, hkeys]
      exact (hmem_ds _).mp (getD_mem_of_lt hj)
    obtain ⟨m, hm⟩ := Option.isSome_iff_exists.mp (hp i hi)
    rw [calc_lookup (aggCombine cs) _ hnodup_ds hp i hi, hm]
    simp only [Option.map_some', Option.some.injEq, applyRolling]
    rw [if_pos h6]

/-- Witness for C9 on `exSeg2` (no segment supplies a rolling value at the
earliest date, so the recompute branch is taken). -/
theorem earliest_falsy_rolling_triggers_recompute_witness :
    ((∀ c ∈ exSeg2, segNodup c) ∧ allDatesOf exSeg2 ≠ []) ∧
    ((aggregateAllCountries exSeg2 = some
      (if (exSeg2.map
            (fun c => segRolling7 c ((sortStr (allDatesOf exSeg2)).getD 0 ""))).sum ≠ 0
       then aggCombine exSeg2
       else calculateRollingMetrics (aggCombine exSeg2) (sortStr (allDatesOf exSeg2)))) ∧
    ((exSeg2.map
        (fun c => segRolling7 c ((sortStr (allDatesOf exSeg2)).getD 0 ""))).sum ≠ 0 ↔
      ∃ c ∈ exSeg2, segRolling7 c ((sortStr (allDatesOf exSeg2)).getD 0 "") ≠ 0) ∧
    ((exSeg2.map
        (fun c => segRolling7 c ((sortStr (allDatesOf exSeg2)).getD 0 ""))).sum = 0 →
      ∀ i, i < (sortStr (allDatesOf exSeg2)).length → 6 ≤ i →
        (lookupDate
          (calculateRollingMetrics (aggCombine exSeg2) (sortStr (allDatesOf exSeg2)))
          ((sortStr (allDatesOf exSeg2)).getD i "")).map (·.rolling_7) =
        some (some (windowSum (pvAt (aggCombine exSeg2) (sortStr (allDatesOf exSeg2)))
          (i - 6) i)))) := by
  have hnd : ∀ c ∈ exSeg2, segNodup c := by
    intro c hc
    rcases List.mem_cons.mp hc with rfl | hc
    · exact segNodup_of_some rfl (by decide)
    · rcases List.mem_cons.mp hc with rfl | hc
      · exact segNodup_of_some rfl (by decide)
      · simp at hc
  have hne : allDatesOf exSeg2 ≠ [] := by decide
  exact ⟨⟨hnd, hne⟩, earliest_falsy_rolling_triggers_recompute exSeg2 hnd hne⟩

/-! ### Claim C10: termination of aggregation on raw-shape inputs -/

/-- On non-null inputs, the aggregator produces a series whenever the date
union is nonempty. -/
theorem aggregate_isSome_of_dates_ne_nil (cs : List Country)
    (hne : allDatesOf cs ≠ []) : (aggregateAllCountries cs).isSome := by
  have hne' : sortStr (allDatesOf cs) ≠ [] :=
    fun hc => hne ((sortStr_eq_nil_iff _).mp hc)
  simp only [aggregateAllCountries, keys_aggCombine]
  cases hc : sortStr (allDatesOf cs) with
  | nil => exact absurd hc hne'
  | cons d0 dtl =>
    dsimp only
    split_ifs with h
    · rfl
    · rfl

/-- Proof-side projection of a segment value to its country; meaningful
only under a no-null hypothesis (the `nullSeg` branch is junk and is used
by no theorem without that hypothesis). -/
def segCountry : SegVal → Country
  | .nullSeg => ⟨none⟩
  | .country c => c

theorem allDatesE_ok_of_no_null (vs : List SegVal)
    (hnn : ∀ v ∈ vs, v ≠ SegVal.nullSeg) :
    ∀ acc, allDatesE vs acc =
      Except.ok ((vs.map segCountry).foldl addCountryDates acc) := by
  induction vs with
  | nil => intro acc; rfl
  | cons v rest ih =>
    intro acc
    have hv : v ≠ SegVal.nullSeg := hnn v (List.mem_cons_self _ _)
    have hrest : ∀ v' ∈ rest, v' ≠ SegVal.nullSeg :=
      fun v' h => hnn v' (List.mem_cons_of_mem _ h)
    cases v with
    | nullSeg => exact absurd rfl hv
    | country c =>
      show allDatesE rest (addCountryDates acc c) = _
      rw [ih hrest]
      rfl

theorem combineAllE_ok_of_no_null (vs : List SegVal)
    (hnn : ∀ v ∈ vs, v ≠ SegVal.nullSeg) :
    ∀ st, combineAllE vs st =
      Except.ok ((vs.map segCountry).foldl combineCountry st) := by
  induction vs with
  | nil => intro st; rfl
  | cons v rest ih =>
    intro st
    have hv : v ≠ SegVal.nullSeg := hnn v (List.mem_cons_self _ _)
    have hrest : ∀ v' ∈ rest, v' ≠ SegVal.nullSeg :=
      fun v' h => hnn v' (List.mem_cons_of_mem _ h)
    cases v with
    | nullSeg => exact absurd rfl hv
    | country c =>
      show combineAllE rest (combineCountry st c) = _
      rw [ih hrest]
      rfl

/-- Without null segment values, the full aggregator agrees with its
non-null restriction. -/
theorem aggregateAllCountriesV_eq_of_no_null (vs : List SegVal)
    (hnn : ∀ v ∈ vs, v ≠ SegVal.nullSeg) :
    aggregateAllCountriesV vs = aggregateAllCountries (vs.map segCountry) := by
  unfold aggregateAllCountriesV
  rw [allDatesE_ok_of_no_null vs hnn []]
  dsimp only
  rw [combineAllE_ok_of_no_null vs hnn]
  rfl

/-- C10 (amended): for a raw by-segment input, normalization terminates and
returns a bundle without throwing provided no segment value is
`null`/`undefined` and some segment carries a nonempty `daily` mapping.
Either proviso is necessary: a `null` segment value makes the
date-collection pass throw at line 90 even with a nonempty union, and an
empty union makes line 122 dereference
`allMetrics.daily[undefined]` — both shown in the counterexample. -/
theorem aggregation_total_on_nonempty_union (vs : List SegVal)
    (hnn : ∀ v ∈ vs, v ≠ SegVal.nullSeg)
    (hne : ∃ v ∈ vs, ∃ c es, v = SegVal.country c ∧ c.daily = some es ∧ es ≠ []) :
    (aggregateAllCountriesV vs).isSome := by
  rw [aggregateAllCountriesV_eq_of_no_null vs hnn]
  apply aggregate_isSome_of_dates_ne_nil
  obtain ⟨v, hv, c, es, rfl, hdaily, hes⟩ := hne
  obtain ⟨e, he⟩ := List.exists_mem_of_ne_nil es hes
  have hc : c ∈ vs.map segCountry := List.mem_map.mpr ⟨SegVal.country c, hv, rfl⟩
  have hdate : e.1 ∈ allDatesOf (vs.map segCountry) :=
    (mem_allDatesOf _ _).mpr ⟨c, hc, es, hdaily, List.mem_map_of_mem _ he⟩
  exact List.ne_nil_of_mem hdate

/-- Witness for the amended C10 on a one-segment, one-date, null-free
input. -/
theorem aggregation_total_on_nonempty_union_witness :
    ((∀ v ∈ [SegVal.country ⟨some [("2024-01-01", rawDM 3)]⟩], v ≠ SegVal.nullSeg) ∧
      (∃ v ∈ [SegVal.country (⟨some [("2024-01-01", rawDM 3)]⟩ : Country)], ∃ c es,
        v = SegVal.country c ∧ c.daily = some es ∧ es ≠ [])) ∧
    (aggregateAllCountriesV [SegVal.country ⟨some [("2024-01-01", rawDM 3)]⟩]).isSome := by
  have hnn : ∀ v ∈ [SegVal.country (⟨some [("2024-01-01", rawDM 3)]⟩ : Country)],
      v ≠ SegVal.nullSeg := by
    intro v hv
    rw [List.mem_singleton] at hv
    subst hv
    intro hc
    exact SegVal.noConfusion hc
  have hne : ∃ v ∈ [SegVal.country (⟨some [("2024-01-01", rawDM 3)]⟩ : Country)], ∃ c es,
      v = SegVal.country c ∧ c.daily = some es ∧ es ≠ [] :=
    ⟨SegVal.country ⟨some [("2024-01-01", rawDM 3)]⟩, List.mem_singleton.mpr rfl,
      ⟨some [("2024-01-01", rawDM 3)]⟩, [("2024-01-01", rawDM 3)], rfl, rfl,
      List.cons_ne_nil _ _⟩
  exact ⟨⟨hnn, hne⟩, aggregation_total_on_nonempty_union _ hnn hne⟩

/-! ### `DashboardUI.loadData` (lines 45–75): input shape classification

The stored document's `data` field is an arbitrary JSON-like value. The
code probes it with property accesses and `Object.keys(...).some(...)`:

* `rawData.all && rawData.by_country` → canonical bundle, used as-is;
* `!rawData.all && Object.keys(rawData).some(key => rawData[key].daily)` →
  raw per-country mapping, aggregated on the fly;
* otherwise → `showError("Data format error...")` and return (no metrics).

Property access on `null`/`undefined` throws a `TypeError`, which the
`async` method surfaces as an unhandled rejection, not as the error UI. -/

/-- A JSON-like stored value. Numbers are modelled as integers (the data
holds counts; only truthiness matters to the classifier). -/
inductive JsVal where
  | nullV
  | num (n : Int)
  | str (s : String)
  | obj (fields : List (String × JsVal))

/-- JavaScript truthiness of a value. -/
def jsTruthy : JsVal → Bool
  | .nullV => false
  | .num n => if n = 0 then false else true
  | .str s => if s = "" then false else true
  | .obj _ => true

/-- The own enumerable fields of a value (`Object.keys`-style; empty for
primitives). -/
def objFields : JsVal → List (String × JsVal)
  | .obj fs => fs
  | _ => []

/-- First-match field lookup within an object literal. -/
def lookupField : List (String × JsVal) → String → Option JsVal
  | [], _ => none
  | (k, v) :: rest, s => if k = s then some v else lookupField rest s

/-- JavaScript property access `v[s]`: `undefined` (`none`) on primitives
and missing keys, but a thrown `TypeError` (`Except.error`) on
`null`/`undefined` receivers. -/
def getField : JsVal → String → Except Unit (Option JsVal)
  | .nullV, _ => .error ()
  | .num _, _ => .ok none
  | .str _, _ => .ok none
  | .obj fs, s => .ok (lookupField fs s)

/-- Truthiness of an access result (`undefined` is falsy). -/
def truthyO (o : Option JsVal) : Bool :=
  match o with
  | none => false
  | some v => jsTruthy v

/-- `Object.keys(rawData).some(key => rawData[key].daily)`: evaluated in key
order, short-circuiting at the first truthy `daily`, and throwing if a
visited value is `null`/`undefined`. -/
def someKeyHasDaily : List (String × JsVal) → Except Unit Bool
  | [] => .ok false
  | (_, v) :: rest =>
    match getField v "daily" with
    | .error e => .error e
    | .ok o => if truthyO o then .ok true else someKeyHasDaily rest

/-- The three recognized outcomes of shape classification. -/
inductive ShapeClass where
  | canonical
  | rawSegments
  | unrecognized
  deriving Repr, DecidableEq

/-- The classifier of `loadData` lines 48–68: canonical when `all` and
`by_country` are truthy; raw when `all` is falsy and some key's value has a
truthy `daily` (the `&&` short-circuit means the `some` probe only runs when
`all` is falsy); otherwise unrecognized. -/
def classify (rawData : JsVal) : Except Unit ShapeClass :=
  match getField rawData "all" with
  | .error e => .error e
  | .ok allF =>
    if truthyO allF then
      match getField rawData "by_country" with
      | .error e => .error e
      | .ok byC => if truthyO byC then .ok .canonical else .ok .unrecognized
    else
      match someKeyHasDaily (objFields rawData) with
      | .error e => .error e
      | .ok true => .ok .rawSegments
      | .ok false => .ok .unrecognized

/-- What the run observably does with a stored document. -/
inductive NormOutcome where
  | canonicalPass
  | aggregated
  | dataFormatError
  | crashed
  deriving Repr, DecidableEq

/-- The outcome of `loadData`'s normalization for a truthy `rawData`:
canonical input is kept as-is, raw input is aggregated, an unrecognized
shape shows the "Data format error" message and sets no metrics, and a
thrown `TypeError` crashes the run (unhandled rejection — no error UI). -/
def loadDataOutcome (rawData : JsVal) : NormOutcome :=
  match classify rawData with
  | .error _ => .crashed
  | .ok .canonical => .canonicalPass
  | .ok .rawSegments => .aggregated
  | .ok .unrecognized => .dataFormatError

/-- The canonical `MetricsBundle` shape of the spec: truthy `all` and
`by_country` keys. -/
def matchesCanonical (v : JsVal) : Bool :=
  truthyO (lookupField (objFields v) "all") &&
    truthyO (lookupField (objFields v) "by_country")

/-- The raw by-segment shape of the spec: some key whose value carries a
truthy per-date `daily` mapping. -/
def matchesRaw (v : JsVal) : Bool :=
  (objFields v).any (fun e => truthyO (lookupField (objFields e.2) "daily"))

theorem getField_ok_of_ne_null (v : JsVal) (hv : v ≠ JsVal.nullV) (s : String) :
    getField v s = Except.ok (lookupField (objFields v) s) := by
  cases v with
  | nullV => exact absurd rfl hv
  | num n => rfl
  | str s' => rfl
  | obj fs => rfl

theorem someKeyHasDaily_of_no_null (fs : List (String × JsVal))
    (hnn : ∀ e ∈ fs, e.2 ≠ JsVal.nullV) :
    someKeyHasDaily fs =
      Except.ok (fs.any (fun e => truthyO (lookupField (objFields e.2) "daily"))) := by
  induction fs with
  | nil => rfl
  | cons e rest ih =>
    obtain ⟨k, v⟩ := e
    have hv : v ≠ JsVal.nullV := hnn (k, v) (List.mem_cons_self _ _)
    have hrest : ∀ e ∈ rest, e.2 ≠ JsVal.nullV :=
      fun e he => hnn e (List.mem_cons_of_mem _ he)
    rw [someKeyHasDaily, getField_ok_of_ne_null v hv]
    by_cases ht : truthyO (lookupField (objFields v) "daily")
    · simp [ht, List.any_cons]
    · simp only [ht, if_neg, Bool.false_eq_true, not_false_eq_true, ite_false,
        List.any_cons]
      rw [ih hrest]
      simp [ht]

/-- C7 (amended): a truthy stored document matching neither the canonical
shape nor the raw by-segment shape is classified `unrecognized` — surfaced
as the "Data format error" message, with no aggregation performed and no
metrics set — provided none of its top-level values is `null`; a `null`
value makes the shape probe itself throw (see the counterexample). -/
theorem unrecognized_shape_reports_error (v : JsVal) (ht : jsTruthy v = true)
    (hnc : matchesCanonical v = false) (hnr : matchesRaw v = false)
    (hnn : ∀ e ∈ objFields v, e.2 ≠ JsVal.nullV) :
    loadDataOutcome v = NormOutcome.dataFormatError := by
  have hv : v ≠ JsVal.nullV := by
    intro hc
    rw [hc] at ht
    exact Bool.noConfusion ht
  unfold loadDataOutcome classify
  rw [getField_ok_of_ne_null v hv]
  unfold matchesCanonical at hnc
  by_cases hall : truthyO (lookupField (objFields v) "all")
  · have hbc : truthyO (lookupField (objFields v) "by_country") = false := by
      rw [hall] at hnc
      simpa using hnc
    rw [getField_ok_of_ne_null v hv]
    simp [hall, hbc]
  · rw [someKeyHasDaily_of_no_null (objFields v) hnn]
    unfold matchesRaw at hnr
    simp [hall, hnr]

/-- Counterexample to C7 as stated: the document `{foo: null}` matches
neither recognized shape, yet the run does not fail with the data-format
error — the shape probe `rawData["foo"].daily` throws a `TypeError` and the
run crashes. -/
theorem null_value_crashes_counterexample :
    matchesCanonical (JsVal.obj [("foo", JsVal.nullV)]) = false ∧
    matchesRaw (JsVal.obj [("foo", JsVal.nullV)]) = false ∧
    loadDataOutcome (JsVal.obj [("foo", JsVal.nullV)]) = NormOutcome.crashed ∧
    NormOutcome.crashed ≠ NormOutcome.dataFormatError :=
  ⟨rfl, rfl, rfl, by decide⟩

/-- Witness for the amended C7 on the spec's own example `{foo: 123}`. -/
theorem unrecognized_shape_reports_error_witness :
    (jsTruthy (JsVal.obj [("foo", JsVal.num 123)]) = true ∧
      matchesCanonical (JsVal.obj [("foo", JsVal.num 123)]) = false ∧
      matchesRaw (JsVal.obj [("foo", JsVal.num 123)]) = false ∧
      (∀ e ∈ objFields (JsVal.obj [("foo", JsVal.num 123)]), e.2 ≠ JsVal.nullV)) ∧
    loadDataOutcome (JsVal.obj [("foo", JsVal.num 123)]) = NormOutcome.dataFormatError := by
  have hnn : ∀ e ∈ objFields (JsVal.obj [("foo", JsVal.num 123)]), e.2 ≠ JsVal.nullV := by
    intro e he
    simp only [objFields, List.mem_singleton] at he
    subst he
    intro hc
    exact JsVal.noConfusion hc
  exact ⟨⟨rfl, rfl, rfl, hnn⟩,
    unrecognized_shape_reports_error (JsVal.obj [("foo", JsVal.num 123)]) rfl rfl rfl hnn⟩

/-- Counterexample to C10 as stated, via two raw-shape inputs on which
normalization throws instead of returning a bundle. First, `{no: {daily: {}}}`
is classified raw (an empty object is truthy) but its date union is empty, so
line 122 dereferences `allMetrics.daily[datesSorted[0]]` on `undefined`.
Second, `{no: {daily: {"2024-01-01": ...}}, bad: null}` is also classified raw
(the `.some` probe short-circuits at `no` and never visits `bad`) and its
union is nonempty, yet the date-collection pass evaluates `country.daily` on
`null` (line 90) and throws a `TypeError`. -/
theorem empty_daily_throws_counterexample :
    (classify (JsVal.obj [("no", JsVal.obj [("daily", JsVal.obj [])])]) =
      Except.ok ShapeClass.rawSegments ∧
    aggregateAllCountries [(⟨some []⟩ : Country)] = none ∧
    aggregateAllCountriesV [SegVal.country ⟨some []⟩] = none) ∧
    (classify (JsVal.obj [("no", JsVal.obj [("daily",
        JsVal.obj [("2024-01-01", JsVal.num 3)])]), ("bad", JsVal.nullV)]) =
      Except.ok ShapeClass.rawSegments ∧
    aggregateAllCountriesV
      [SegVal.country ⟨some [("2024-01-01", rawDM 3)]⟩, SegVal.nullSeg] = none) :=
  ⟨⟨rfl, rfl, rfl⟩, rfl, rfl⟩

/-! ### Claim C8: the query path of `updateDashboard`/`updateCharts`

`updateDashboard` (lines 184–205) selects `currentMetrics.all` for the
`"all"` filter and `currentMetrics.by_country[country]` otherwise; a missing
country yields `undefined`, and the subsequent `data.daily` accesses throw
(`TypeError`), the run's analogue of a segment-not-found failure.
`updateCharts` (lines 262–265) then restricts to dates `<= yesterdayStr` and
sorts ascending. -/

/-- `{all, by_country}` as held in `currentMetrics`. -/
structure MetricsBundle where
  all : Daily
  by_country : List (String × Country)

/-- `currentMetrics.by_country[country]`. -/
def lookupCountry : List (String × Country) → String → Option Country
  | [], _ => none
  | (k, c) :: rest, s => if k = s then some c else lookupCountry rest s

/-- The dashboard's query: select the series for a segment, restrict it to
dates `<= cutoff` and sort ascending, pairing each kept date with its
record (as the chart arrays do). `Except.error` models the `TypeError`
thrown on a missing segment (or a missing `daily`). -/
def queryDashboard (bundle : MetricsBundle) (segment cutoff : String) :
    Except Unit Daily :=
  let dataDaily : Option Daily :=
    if segment = "all" then some bundle.all
    else (lookupCountry bundle.by_country segment).bind (·.daily)
  match dataDaily with
  | none => Except.error ()
  | some daily =>
    let dates := sortStr ((daily.map Prod.fst).filter (fun d => strLe d cutoff))
    Except.ok (dates.map (fun d => (d, (lookupDate daily d).getD default)))

/-- The series the query reads from, as a total function (meaningful when
the query succeeds). -/
def selectedDaily (bundle : MetricsBundle) (segment : String) : Daily :=
  if segment = "all" then bundle.all
  else ((lookupCountry bundle.by_country segment).bind (·.daily)).getD []

theorem lookupCountry_mem {l : List (String × Country)} {s : String} {c : Country}
    (h : lookupCountry l s = some c) : (s, c) ∈ l := by
  induction l with
  | nil => exact Option.noConfusion h
  | cons e rest ih =>
    obtain ⟨k, c'⟩ := e
    by_cases hk : k = s
    · subst hk
      rw [lookupCountry, if_pos rfl] at h
      obtain rfl := Option.some.inj h
      exact List.mem_cons_self _ _
    · rw [lookupCountry, if_neg hk] at h
      exact List.mem_cons_of_mem _ (ih h)

theorem keys_map_pair (l : List String) (f : String → DailyMetric) :
    (l.map (fun d => (d, f d))).map Prod.fst = l := by
  rw [List.map_map]
  exact List.map_id l

theorem mem_map_pair (l : List String) (f : String → DailyMetric) (d : String)
    (m : DailyMetric) : (d, m) ∈ l.map (fun d => (d, f d)) ↔ d ∈ l ∧ m = f d := by
  rw [List.mem_map]
  constructor
  · rintro ⟨a, ha, he⟩
    obtain ⟨h1, h2⟩ := Prod.mk.injEq _ _ _ _ ▸ he
    subst h1
    exact ⟨ha, h2.symm⟩
  · rintro ⟨hd, rfl⟩
    exact ⟨d, hd, rfl⟩

theorem query_ok_core (daily : Daily) (cutoff : String) :
    List.Pairwise (fun a b => strLe a b = true)
      (((sortStr ((daily.map Prod.fst).filter (fun d => strLe d cutoff))).map
        (fun d => (d, (lookupDate daily d).getD default))).map Prod.fst) ∧
    ∀ d m, (d, m) ∈ (sortStr ((daily.map Prod.fst).filter (fun d => strLe d cutoff))).map
        (fun d => (d, (lookupDate daily d).getD default)) ↔
      (strLe d cutoff = true ∧ lookupDate daily d = some m) := by
  constructor
  · rw [keys_map_pair]
    exact sorted_sortStr _
  · intro d m
    rw [mem_map_pair, mem_sortStr, List.mem_filter]
    constructor
    · rintro ⟨⟨hdk, hdc⟩, rfl⟩
      refine ⟨hdc, ?_⟩
      obtain ⟨v, hv⟩ := Option.isSome_iff_exists.mp ((lookupDate_isSome_iff daily d).mpr hdk)
      rw [hv]
      rfl
    · rintro ⟨hdc, hlm⟩
      refine ⟨⟨?_, hdc⟩, ?_⟩
      · exact (lookupDate_isSome_iff daily d).mp (by rw [hlm]; rfl)
      · rw [hlm]
        rfl

theorem some_bind_eq {α β : Type} (a : α) (f : α → Option β) :
    (some a).bind f = f a := rfl

/-- C8: the dashboard query returns the requested segment's series (or the
combined `all` series) restricted to dates `<= cutoff` and sorted
ascending, and fails (the `TypeError` on `undefined`) exactly when the
segment is not `"all"` and absent from `by_country`. Assumes the data-model
invariant that every stored country carries a `daily` series. -/
theorem query_restricts_and_fails_on_missing_segment (bundle : MetricsBundle)
    (hdall : ∀ p ∈ bundle.by_country, p.2.daily.isSome)
    (segment cutoff : String) :
    ((queryDashboard bundle segment cutoff = Except.error ()) ↔
      (segment ≠ "all" ∧ lookupCountry bundle.by_country segment = none)) ∧
    (∀ res, queryDashboard bundle segment cutoff = Except.ok res →
      List.Pairwise (fun a b => strLe a b = true) (res.map Prod.fst) ∧
      ∀ d m, (d, m) ∈ res ↔
        (strLe d cutoff = true ∧
          lookupDate (selectedDaily bundle segment) d = some m)) := by
  by_cases hseg : segment = "all"
  · subst hseg
    have hq : queryDashboard bundle "all" cutoff = Except.ok
        ((sortStr ((bundle.all.map Prod.fst).filter (fun d => strLe d cutoff))).map
          (fun d => (d, (lookupDate bundle.all d).getD default))) := rfl
    have hsel : selectedDaily bundle "all" = bundle.all := rfl
    constructor
    · rw [hq]
      constructor
      · intro h; exact Except.noConfusion h
      · rintro ⟨hne, _⟩; exact absurd rfl hne
    · intro res hres
      rw [hq] at hres
      obtain rfl := Except.ok.inj hres
      rw [hsel]
      exact query_ok_core bundle.all cutoff
  · cases hlc : lookupCountry bundle.by_country segment with
    | none =>
      have hq : queryDashboard bundle segment cutoff = Except.error () := by
        simp only [queryDashboard, if_neg hseg, hlc]
        rfl
      constructor
      · rw [hq]
        exact ⟨fun _ => ⟨hseg, rfl⟩, fun _ => rfl⟩
      · intro res hres
        rw [hq] at hres
        exact Except.noConfusion hres
    | some c =>
      obtain ⟨es, hes⟩ :=
        Option.isSome_iff_exists.mp (hdall (segment, c) (lookupCountry_mem hlc))
      have hes' : c.daily = some es := hes
      have hq : queryDashboard bundle segment cutoff = Except.ok
          ((sortStr ((es.map Prod.fst).filter (fun d => strLe d cutoff))).map
            (fun d => (d, (lookupDate es d).getD default))) := by
        simp only [queryDashboard, if_neg hseg, hlc, some_bind_eq, hes']
      have hsel : selectedDaily bundle segment = es := by
        unfold selectedDaily
        rw [if_neg hseg, hlc, some_bind_eq, hes']
        rfl
      constructor
      · rw [hq]
        constructor
        · intro h; exact Except.noConfusion h
        · rintro ⟨_, hnone⟩
          exact Option.noConfusion hnone
      · intro res hres
        rw [hq] at hres
        obtain rfl := Except.ok.inj hres
        rw [hsel]
        exact query_ok_core es cutoff

/-- A bundle with segments `no` and `se` (the spec's example): querying
`"dk"` fails, and every successful query is cutoff-restricted and sorted. -/
def exBundle : MetricsBundle :=
  ⟨exAgg2, [("no", ⟨some [("2024-01-01", rawDM 10), ("2024-01-02", rawDM 20)]⟩),
            ("se", ⟨some [("2024-01-02", rawDM 5), ("2024-01-03", rawDM 7)]⟩)]⟩

/-- Witness for C8: querying the missing segment `"dk"` of `exBundle`. -/
theorem query_restricts_and_fails_on_missing_segment_witness :
    (∀ p ∈ exBundle.by_country, p.2.daily.isSome) ∧
    (((queryDashboard exBundle "dk" "2024-01-02" = Except.error ()) ↔
      ("dk" ≠ "all" ∧ lookupCountry exBundle.by_country "dk" = none)) ∧
    (∀ res, queryDashboard exBundle "dk" "2024-01-02" = Except.ok res →
      List.Pairwise (fun a b => strLe a b = true) (res.map Prod.fst) ∧
      ∀ d m, (d, m) ∈ res ↔
        (strLe d "2024-01-02" = true ∧
          lookupDate (selectedDaily exBundle "dk") d = some m))) := by
  have hdall : ∀ p ∈ exBundle.by_country, p.2.daily.isSome := by
    intro p hp
    rcases List.mem_cons.mp hp with rfl | hp
    · rfl
    · rcases List.mem_cons.mp hp with rfl | hp
      · rfl
      · simp at hp
  exact ⟨hdall,
    query_restricts_and_fails_on_missing_segment exBundle hdall "dk" "2024-01-02"⟩
